import Mathlib

/-!
Verification of the segment/slab allocator `Buffer_Namespace::BufferMgr`
(src/DataMgr/BufferMgr/BufferMgr.cpp).

The development is a shallow embedding of the C++ code: the mutable pool is a
`Pool` value, every `std::list<BufferSeg>` node is identified by a stable id
`sid` (modelling `std::list` iterator stability: iterators to non-erased nodes
stay valid across insertions and erasures elsewhere), and every member
function of `BufferMgr` used by the claims is translated into a pure Lean
function on `Pool`.  Machine integers become `Nat`/`Int`; the one place where
a fixed width is semantically relevant (`unsigned int minScore` in the
eviction scan of `findFreeBuffer`) keeps the 32-bit maximum 4294967295 as an
explicit literal.  C++ exceptions become an `Outcome`/`Err` result paired with
the pool state at the moment of the throw, so that "state unchanged on
failure" is expressible.
-/

/-- `Buffer_Namespace::MemStatus`: the status of a segment (BufferMgr.h). -/
inductive MemStatus
  | FREE
  | USED
deriving DecidableEq

/-- The external `Buffer` object, reduced to the observable state used by
`BufferMgr.cpp`: pin count, logical size, contents `dat` (indexed from 0,
location independent), the raw memory address `mem_` (0 = null), the chunk
page size passed at construction, the three dirty flags, and the encoder
metadata (abstracted to a single `Nat`, since `BufferMgr.cpp` only ever copies
it wholesale via `syncEncoder`). -/
structure Buf where
  pinCount : Nat := 0
  size : Nat := 0
  dat : List Int := []
  mem : Nat := 0
  pageSz : Nat := 0
  isDirty : Bool := false
  isUpdated : Bool := false
  isAppended : Bool := false
  encoder : Nat := 0
deriving DecidableEq

/-- `Buffer_Namespace::BufferSeg`.  `sid` is the identity of the underlying
`std::list` node (the iterator stored in `chunkIndex_`); the remaining fields
are the C++ fields.  Defaults follow the `BufferSeg` constructors used in
BufferMgr.cpp: `startPage = -1`, `lastTouched = 0`, `slabNum = -1`, empty
chunk key, null buffer. -/
structure BufferSeg where
  sid : Nat
  startPage : Int := -1
  numPages : Nat := 0
  memStatus : MemStatus := MemStatus.FREE
  lastTouched : Nat := 0
  slabNum : Int := -1
  chunkKey : List Int := []
  buffer : Option Buf := none
deriving DecidableEq

/-- Placeholder segment used for guarded `List.getD` reads (never observable:
every `getD` below is performed at an index known to be in bounds). -/
def dummySeg : BufferSeg := { sid := 0 }

/-- The mutable state of one `BufferMgr`.  `slabs` holds the base address of
each slab's raw memory (obtained through the `addSlab` hook), `slabSegments`
the per-slab segment lists, `unsizedSegs` the not-yet-placed placeholder
segments, and `chunkIndex` the ordered `std::map<ChunkKey, BufferList::iterator>`
as a `lexLt`-sorted association list mapping keys to segment ids.
`nextSid` supplies the identity of the next freshly allocated list node.
Configuration fields not used by any modelled operation (device id, parent
manager, `maxBufferSize_`) are omitted; `maxNumSlabs = maxBufferSize_/slabSize_`
is kept directly. -/
structure Pool where
  pageSize : Nat
  numPagesPerSlab : Nat
  maxNumSlabs : Nat
  slabs : List Nat := []
  slabSegments : List (List BufferSeg) := []
  unsizedSegs : List BufferSeg := []
  chunkIndex : List (List Int × Nat) := []
  bufferEpoch : Nat := 0
  nextSid : Nat := 0
deriving DecidableEq

/-- The `std::runtime_error`s thrown by BufferMgr.cpp, plus `AssertFail` for a
failed `assert` or for undefined behaviour (dereferencing an end/dangling
iterator), which the embedding surfaces as an explicit failure. -/
inductive Err
  | AlreadyExists
  | NotFound
  | TooLarge
  | OutOfMemory
  | Inconsistency
  | AssertFail
deriving DecidableEq

/-- Result of an operation that returns a segment handle (`BufferList::iterator`
in the C++), or throws. -/
inductive Outcome
  | ok (sid : Nat)
  | err (e : Err)
deriving DecidableEq

/-- `segIt->buffer->getPinCount()`; a null buffer reads as pin count 0 (the
C++ would be UB there; no modelled state reaches it with a null buffer). -/
def pinOf (s : BufferSeg) : Nat :=
  match s.buffer with
  | some b => b.pinCount
  | none => 0

/-- All live segment nodes, unsized ones first, then the slab lists in order. -/
def allSegs (st : Pool) : List BufferSeg :=
  st.unsizedSegs ++ st.slabSegments.flatten

/-- Resolve a stored iterator: the (unique, for well-formed states) live node
with this id. -/
def findSeg (st : Pool) (sid : Nat) : Option BufferSeg :=
  (allSegs st).find? (fun s => s.sid == sid)

/-- Mutate through a stored iterator: rewrite the node carrying this id
(unique for well-formed states) in place. -/
def updateSegF (st : Pool) (sid : Nat) (f : BufferSeg → BufferSeg) : Pool :=
  { st with
    unsizedSegs := st.unsizedSegs.map (fun s => if s.sid == sid then f s else s),
    slabSegments := st.slabSegments.map
      (fun l => l.map (fun s => if s.sid == sid then f s else s)) }

/-- `segIt->buffer = v` through a stored iterator. -/
def updateSegBuf (st : Pool) (sid : Nat) (v : Option Buf) : Pool :=
  updateSegF st sid (fun s => { s with buffer := v })

/-- `operator<` on `ChunkKey = std::vector<int>`: lexicographic comparison. -/
def lexLt : List Int → List Int → Bool
  | _, [] => false
  | [], _ :: _ => true
  | a :: as, b :: bs => if a < b then true else if b < a then false else lexLt as bs

/-- Spec-side predicate: `k` begins with `pfx`. -/
def keyStartsWith (pfx k : List Int) : Bool := k.take pfx.length == pfx

/-- The loop guard of `deleteBuffersWithPrefix` (BufferMgr.cpp:387):
`std::search(k.begin(), k.begin()+|pfx|, pfx.begin(), pfx.end()) != k.begin()+|pfx|`.
`std::search` over a window of exactly `|pfx|` elements finds the pattern iff
the window equals the pattern, in which case it returns the window's begin;
so the guard holds iff the window equals `pfx` and `|pfx| ≠ 0` (for an empty
pattern `std::search` returns the window's begin = its end, failing the
guard).  When `|k| < |pfx|` the C++ reads past the end of `k` (UB); the
embedding totalises that read with the clamping `List.take`, under which the
window is shorter than the pattern and the guard fails. -/
def delCond (pfx k : List Int) : Bool :=
  !pfx.isEmpty && (k.take pfx.length == pfx)

/-- `chunkIndex_[key] = v` on the sorted association list: replace the mapped
value if the key is present, otherwise insert at the sorted position. -/
def idxInsert : List (List Int × Nat) → List Int → Nat → List (List Int × Nat)
  | [], k, v => [(k, v)]
  | e :: rest, k, v =>
    if lexLt k e.1 then (k, v) :: e :: rest
    else if lexLt e.1 k then e :: idxInsert rest k v
    else (k, v) :: rest

/-- Overwrite `src.length` elements of `dst` starting at offset `off`
(callers guarantee `off + src.length ≤ dst.length`). -/
def listWrite (dst : List Int) (off : Nat) (src : List Int) : List Int :=
  dst.take off ++ src ++ dst.drop (off + src.length)

/-- `destBuffer->reserve(n)`: grow the backing store to at least `n` bytes,
preserving contents and the logical size. -/
def bufReserve (b : Buf) (n : Nat) : Buf :=
  { b with dat := b.dat ++ List.replicate (n - b.dat.length) 0 }

/-- `Buffer::clearDirtyBits()` (Buffer is external to BufferMgr.cpp; the spec
describes `is_dirty`/`is_updated`/`is_appended` as "dirty bits", all cleared). -/
def clearDirtyBits (b : Buf) : Buf :=
  { b with isDirty := false, isUpdated := false, isAppended := false }

/-- Modelled from the spec: `Buffer::write(src, n, offset, ...)` (the Buffer
class is not under src/).  Writes `n` bytes at `offset`, growing the logical
size to at least `offset + n` and setting the dirty flag (spec §6: dirty bits
owned by the Buffer). -/
def bufWrite (b : Buf) (src : List Int) (n off : Nat) : Buf :=
  { b with
    dat := listWrite (b.dat ++ List.replicate ((off + n) - b.dat.length) 0) off (src.take n),
    size := max b.size (off + n),
    isDirty := true }

/-- Modelled from the spec: `Buffer::append(src, n, ...)` (not under src/):
write `n` bytes at the current end. -/
def bufAppend (b : Buf) (src : List Int) (n : Nat) : Buf :=
  bufWrite b src n b.size

/-- `BufferMgr::findFreeBufferInSlab` (BufferMgr.cpp:175-200): take the first
FREE segment of at least `req` pages, flip it to USED with exactly `req`
pages, stamp `lastTouched = bufferEpoch_++` and `slabNum`, and insert a FREE
remainder node after it when the segment had excess pages.  Returns the taken
node's id, or `none` for the end iterator (miss). -/
def findFreeBufferInSlab (st : Pool) (slabNum req : Nat) : Pool × Option Nat :=
  let l := st.slabSegments.getD slabNum []
  match l.findIdx? (fun s => decide (s.memStatus = MemStatus.FREE ∧ req ≤ s.numPages)) with
  | none => (st, none)
  | some i =>
    let s := l.getD i dummySeg
    let excess := s.numPages - req
    let s' := { s with numPages := req, memStatus := MemStatus.USED,
                       lastTouched := st.bufferEpoch, slabNum := Int.ofNat slabNum }
    let l₁ := l.set i s'
    let l₂ :=
      if 0 < excess then
        l₁.take (i+1)
          ++ { sid := st.nextSid, startPage := s.startPage + (req : Int),
               numPages := excess, memStatus := MemStatus.FREE } :: l₁.drop (i+1)
      else l₁
    ({ st with slabSegments := st.slabSegments.set slabNum l₂,
               bufferEpoch := st.bufferEpoch + 1,
               nextSid := st.nextSid + (if 0 < excess then 1 else 0) },
     some s.sid)

/-- The slab loop of `findFreeBuffer` step 2 (BufferMgr.cpp:210-215): try
`findFreeBufferInSlab` on slabs `slabNum, slabNum+1, ...` (`remaining` many),
returning the first hit.  A miss leaves the pool untouched. -/
def findFreeLoop (st : Pool) (req : Nat) : Nat → Nat → Pool × Option Nat
  | _, 0 => (st, none)
  | slabNum, r + 1 =>
    match findFreeBufferInSlab st slabNum req with
    | (st', some sid) => (st', some sid)
    | (_, none) => findFreeLoop st req (slabNum + 1) r

/-- Modelled from the spec: the `addSlab` hook (implemented by memory-tier
subclasses, not under src/) obtains a raw region of `slabSize_` bytes and
registers a slab holding a single FREE segment spanning all
`numPagesPerSlab` pages (spec §4.3).  Base addresses are abstracted to the
nonzero values `1 + slabIdx·slabSize`. -/
def addSlab (st : Pool) : Pool :=
  { st with
    slabs := st.slabs ++ [1 + st.slabSegments.length * (st.numPagesPerSlab * st.pageSize)],
    slabSegments := st.slabSegments ++
      [[{ sid := st.nextSid, startPage := 0, numPages := st.numPagesPerSlab,
          memStatus := MemStatus.FREE }]],
    nextSid := st.nextSid + 1 }

/-- The inner walk of the eviction scan (BufferMgr.cpp:250-266), started at a
candidate segment: accumulate pages and `lastTouched` scores until either the
request is covered (`(true, score, false)`), a pinned USED segment is hit
(`(false, score, false)`), or the slab's end is reached (`(false, score, true)`). -/
def walkSegs (req : Nat) : List BufferSeg → Nat → Nat → Bool × Nat × Bool
  | [], _, score => (false, score, true)
  | s :: rest, pc, score =>
    if s.memStatus = MemStatus.USED ∧ 1 ≤ pinOf s then (false, score, false)
    else
      let pc' := pc + s.numPages
      let score' := score + (if s.memStatus = MemStatus.USED then s.lastTouched else 0)
      if req ≤ pc' then (true, score', false)
      else walkSegs req rest pc' score'

/-- The per-slab start loop of the eviction scan (BufferMgr.cpp:236-284):
each suffix head is a candidate start.  A walk that satisfies the request with
a score strictly below the running minimum becomes the new best candidate; a
walk that runs off the slab's end without satisfying it aborts the remaining
starts of this slab ("our search has proven futile"); a walk stopped by a pin
just moves to the next start. -/
def scanStarts (req slabNum : Nat) : List BufferSeg → Nat → Option (Nat × Nat) →
    Nat × Option (Nat × Nat)
  | [], ms, best => (ms, best)
  | s :: rest, ms, best =>
    match walkSegs req (s :: rest) 0 0 with
    | (true, score, _) =>
      if score < ms then scanStarts req slabNum rest score (some (slabNum, s.sid))
      else scanStarts req slabNum rest ms best
    | (false, _, true) => (ms, best)
    | (false, _, false) => scanStarts req slabNum rest ms best

/-- The outer slab loop of the eviction scan (BufferMgr.cpp:235). -/
def scanSlabs (req : Nat) : List (List BufferSeg) → Nat → Nat → Option (Nat × Nat) →
    Nat × Option (Nat × Nat)
  | [], _, ms, best => (ms, best)
  | l :: rest, slabNum, ms, best =>
    match scanStarts req slabNum l ms best with
    | (ms', best') => scanSlabs req rest (slabNum + 1) ms' best'

/-- The erase loop of `BufferMgr::evict` (BufferMgr.cpp:82-91): consume
segments from the eviction start until `req` pages are accumulated, asserting
pin count 0 on USED victims and erasing indexed victims from `chunkIndex_`.
Returns the remaining suffix, the updated index, and the accumulated page
count; `none` models a fired assert (or walking off the end, UB in the C++). -/
def evictConsume (req : Nat) : List BufferSeg → List (List Int × Nat) → Nat →
    Option (List BufferSeg × List (List Int × Nat) × Nat)
  | segs, idx, acc =>
    if req ≤ acc then some (segs, idx, acc)
    else
      match segs with
      | [] => none
      | s :: rest =>
        if s.memStatus = MemStatus.USED ∧ 1 ≤ pinOf s then none
        else
          evictConsume req rest
            (if s.memStatus = MemStatus.USED ∧ s.chunkKey ≠ [] then
               idx.eraseP (fun e => e.1 == s.chunkKey)
             else idx)
            (acc + s.numPages)

/-- `BufferMgr::evict` (BufferMgr.cpp:75-108): erase victims from the start
node on, insert the new USED data segment of `req` pages at the hole
(`lastTouched = bufferEpoch_++`), and reconcile excess pages by extending the
following FREE segment backwards or inserting a new FREE segment. -/
def evict (st : Pool) (startSid req slabNum : Nat) : Pool × Outcome :=
  let l := st.slabSegments.getD slabNum []
  match l.findIdx? (fun s => s.sid == startSid) with
  | none => (st, Outcome.err Err.AssertFail)
  | some i =>
    let startPage := (l.getD i dummySeg).startPage
    match evictConsume req (l.drop i) st.chunkIndex 0 with
    | none => (st, Outcome.err Err.AssertFail)
    | some (restSegs, idx', acc) =>
      let dataSeg : BufferSeg :=
        { sid := st.nextSid, startPage := startPage, numPages := req,
          memStatus := MemStatus.USED, lastTouched := st.bufferEpoch,
          slabNum := Int.ofNat slabNum }
      let freeSeg : BufferSeg :=
        { sid := st.nextSid + 1, startPage := startPage + (req : Int),
          numPages := acc - req, memStatus := MemStatus.FREE }
      let mergedTail :=
        if req < acc then
          match restSegs with
          | n :: rest' =>
            if n.memStatus = MemStatus.FREE then
              ({ n with startPage := startPage + (req : Int),
                        numPages := n.numPages + (acc - req) } :: rest', false)
            else (freeSeg :: n :: rest', true)
          | [] => ([freeSeg], true)
        else (restSegs, false)
      ({ st with
         slabSegments := st.slabSegments.set slabNum (l.take i ++ dataSeg :: mergedTail.1),
         chunkIndex := idx',
         bufferEpoch := st.bufferEpoch + 1,
         nextSid := st.nextSid + (if mergedTail.2 then 2 else 1) },
       Outcome.ok dataSeg.sid)

/-- `BufferMgr::findFreeBuffer` (BufferMgr.cpp:202-291).  Steps: (1) fail with
`TooLarge` when the request exceeds a slab; (2) first-fit over the existing
slabs; (3) append a slab if allowed and allocate in it; (4) otherwise run the
eviction scan and evict the best candidate, failing with `OutOfMemory` when no
candidate was recorded.  `4294967295` is
`std::numeric_limits<unsigned int>::max()` (the C++ `minScore` is an
`unsigned int` while `score` is a `size_t`). -/
def findFreeBuffer (st : Pool) (numBytes : Nat) : Pool × Outcome :=
  let req := (numBytes + st.pageSize - 1) / st.pageSize
  if st.numPagesPerSlab < req then (st, Outcome.err Err.TooLarge)
  else
    let numSlabs := st.slabSegments.length
    match findFreeLoop st req 0 numSlabs with
    | (st₁, some sid) => (st₁, Outcome.ok sid)
    | (_, none) =>
      if numSlabs < st.maxNumSlabs then
        match findFreeBufferInSlab (addSlab st) numSlabs req with
        | (st₃, some sid) => (st₃, Outcome.ok sid)
        | (st₃, none) => (st₃, Outcome.err Err.AssertFail)
      else
        match scanSlabs req st.slabSegments 0 4294967295 none with
        | (_, none) => (st, Outcome.err Err.OutOfMemory)
        | (_, some (slabN, sid)) => evict st sid req slabN

/-- The body of `BufferMgr::removeSegment`'s placed branch
(BufferMgr.cpp:405-426), phrased on the decomposition
`slab list = pre ++ [seg] ++ post` induced by the iterator: if the previous
segment (last of `pre`) is FREE, absorb its pages into `seg` (taking its
start page) and erase it; if the next segment (head of `post`) is FREE,
absorb its pages and erase it; finally mark `seg` FREE with a null buffer
(the chunk key is not touched by the C++). -/
def removeFromSlabCore (pre : List BufferSeg) (seg : BufferSeg) (post : List BufferSeg) :
    List BufferSeg :=
  let step1 :=
    match pre.getLast? with
    | some p =>
      if p.memStatus = MemStatus.FREE then
        (pre.dropLast, { seg with startPage := p.startPage,
                                  numPages := seg.numPages + p.numPages })
      else (pre, seg)
    | none => (pre, seg)
  let step2 :=
    match post with
    | n :: rest =>
      if n.memStatus = MemStatus.FREE then
        ({ step1.2 with numPages := step1.2.numPages + n.numPages }, rest)
      else (step1.2, post)
    | [] => (step1.2, post)
  step1.1 ++ { step2.1 with memStatus := MemStatus.FREE, buffer := none } :: step2.2

/-- The placed branch of `removeSegment`, locating the iterator's position in
slab `j` by node id. -/
def removeFromSlab (st : Pool) (j : Nat) (sid : Nat) : Pool :=
  let l := st.slabSegments.getD j []
  match l.findIdx? (fun s => s.sid == sid) with
  | none => st
  | some i =>
    let l' := removeFromSlabCore (l.take i) (l.getD i dummySeg) (l.drop (i+1))
    { st with slabSegments := st.slabSegments.set j l' }

/-- `BufferMgr::removeSegment` (BufferMgr.cpp:397-428): an unsized segment
(`slabNum < 0`) is erased from `unsizedSegs_`; a placed segment is coalesced
with FREE neighbours and marked FREE with a null buffer.  The segment is
addressed by its node id (the C++ iterator); an id with no live node models a
dangling iterator (UB in the C++) and is a no-op here. -/
def removeSegment (st : Pool) (sid : Nat) : Pool :=
  match findSeg st sid with
  | none => st
  | some seg =>
    if seg.slabNum < 0 then
      { st with unsizedSegs := st.unsizedSegs.eraseP (fun s => s.sid == sid) }
    else
      removeFromSlab st seg.slabNum.toNat sid

/-- `BufferMgr::reserveBuffer` (BufferMgr.cpp:110-173).  Early return when the
requested page count is strictly below the segment's (the C++ comparison is
`numPagesRequested < segIt->numPages`); otherwise, for a placed segment whose
next neighbour is FREE with enough pages, grow in place (the neighbour is
*not* erased when its page count drops to 0); otherwise migrate: allocate via
`findFreeBuffer`, move the Buffer handle across (rebinding `mem_` to the new
slab address; the byte copy performed by `writeData` is the identity on the
location-independent `dat`, so it is not re-modelled), remove the old segment
and repoint the chunk index. -/
def reserveBuffer (st : Pool) (sid : Nat) (numBytes : Nat) : Pool × Outcome :=
  match findSeg st sid with
  | none => (st, Outcome.err Err.AssertFail)
  | some seg =>
    let req := (numBytes + st.pageSize - 1) / st.pageSize
    let extra := req - seg.numPages
    if req < seg.numPages then (st, Outcome.ok sid)
    else
      let inPlace : Option Pool :=
        if 0 ≤ seg.slabNum then
          let j := seg.slabNum.toNat
          let l := st.slabSegments.getD j []
          match l.findIdx? (fun s => s.sid == sid) with
          | none => none
          | some i =>
            if i + 1 < l.length then
              let nxt := l.getD (i+1) dummySeg
              if nxt.memStatus = MemStatus.FREE ∧ extra ≤ nxt.numPages then
                let seg' := { seg with numPages := req }
                let nxt' := { nxt with numPages := nxt.numPages - extra,
                                       startPage := seg.startPage + (req : Int) }
                some { st with slabSegments :=
                         st.slabSegments.set j ((l.set i seg').set (i+1) nxt') }
              else none
            else none
        else none
      match inPlace with
      | some st' => (st', Outcome.ok sid)
      | none =>
        match findFreeBuffer st numBytes with
        | (st₁, Outcome.err e) => (st₁, Outcome.err e)
        | (st₁, Outcome.ok newSid) =>
          match findSeg st₁ newSid, findSeg st₁ sid with
          | some newSeg, some oldSeg =>
            let newMem := st₁.slabs.getD newSeg.slabNum.toNat 0
                            + newSeg.startPage.toNat * st₁.pageSize
            let movedBuf := oldSeg.buffer.map (fun b => { b with mem := newMem })
            let st₂ := updateSegF st₁ newSid
                         (fun s => { s with buffer := movedBuf, chunkKey := oldSeg.chunkKey })
            let st₃ := removeSegment st₂ sid
            ({ st₃ with chunkIndex := idxInsert st₃.chunkIndex oldSeg.chunkKey newSid },
             Outcome.ok newSid)
          | _, _ => (st₁, Outcome.err Err.AssertFail)

/-- Modelled from the spec: `allocateBuffer` / the `Buffer` constructor (not
under src/).  Construction pins the fresh buffer and records the chunk page
size (spec §4.1: "allocates a Buffer whose construction pins the segment");
a nonzero initial size is then reserved through the pool's `reserveBuffer`
(spec §4.5), which places the unsized segment.  The logical size starts at 0
(nothing has been written). -/
def allocateBuffer (st : Pool) (sid : Nat) (chunkPageSize initialSize : Nat) :
    Pool × Outcome :=
  let st₁ := updateSegBuf st sid (some { pinCount := 1, pageSz := chunkPageSize })
  if 0 < initialSize then reserveBuffer st₁ sid initialSize
  else (st₁, Outcome.ok sid)

/-- `BufferMgr::createBuffer` (BufferMgr.cpp:48-73): a zero chunk page size is
replaced by the pool's `pageSize_` up front; an existing key fails with
`AlreadyExists`; otherwise an unsized USED placeholder is appended to
`unsizedSegs_`, indexed, and handed to `allocateBuffer`.  Returns the id of
the segment finally indexed under the key. -/
def createBuffer (st : Pool) (key : List Int) (chunkPageSize initialSize : Nat) :
    Pool × Outcome :=
  let actualChunkPageSize := if chunkPageSize = 0 then st.pageSize else chunkPageSize
  if st.chunkIndex.any (fun e => e.1 == key) then (st, Outcome.err Err.AlreadyExists)
  else
    let seg : BufferSeg := { sid := st.nextSid, startPage := -1, numPages := 0,
                             memStatus := MemStatus.USED, chunkKey := key }
    let st₁ := { st with unsizedSegs := st.unsizedSegs ++ [seg],
                         chunkIndex := idxInsert st.chunkIndex key st.nextSid,
                         nextSid := st.nextSid + 1 }
    allocateBuffer st₁ st.nextSid actualChunkPageSize initialSize

/-- One iteration of the `deleteBuffersWithPrefix` loop body
(BufferMgr.cpp:389-392): `delete segIt->buffer; segIt->buffer = 0;
removeSegment(segIt)`.  Buffer destruction is modelled by nulling the
segment's buffer field. -/
def deleteOne (st : Pool) (sid : Nat) : Pool :=
  removeSegment (updateSegBuf st sid none) sid

/-- The `while` loop of `deleteBuffersWithPrefix` (BufferMgr.cpp:387-394):
starting from the lower bound, delete entries while the `std::search` guard
holds; returns the state after the deletions together with the surviving
suffix of entries. -/
def delLoop (pfx : List Int) : Pool → List (List Int × Nat) →
    Pool × List (List Int × Nat)
  | st, [] => (st, [])
  | st, e :: rest =>
    if delCond pfx e.1 then delLoop pfx (deleteOne st e.2) rest
    else (st, e :: rest)

/-- `BufferMgr::deleteBuffersWithPrefix` (BufferMgr.cpp:376-395):
`lower_bound(pfx)` splits the sorted index; an exhausted lower bound returns
immediately; otherwise entries are deleted while the search guard holds. -/
def deleteBuffersWithPrefix (st : Pool) (pfx : List Int) : Pool :=
  let before := st.chunkIndex.takeWhile (fun e => lexLt e.1 pfx)
  let after := st.chunkIndex.dropWhile (fun e => lexLt e.1 pfx)
  match after with
  | [] => st
  | _ :: _ =>
    let r := delLoop pfx st after
    { r.1 with chunkIndex := before ++ r.2 }

/-- Shared tail of `BufferMgr::putBuffer` (BufferMgr.cpp:556-558): clear the
source's dirty bits, sync encoder metadata into the pool buffer, return it. -/
def putFinish (st : Pool) (sid : Nat) (b : Buf) (src : Buf) : (Pool × Buf) × Outcome :=
  ((updateSegBuf st sid (some { b with encoder := src.encoder }), clearDirtyBits src),
   Outcome.ok sid)

/-- The body of `BufferMgr::putBuffer` after the buffer has been obtained
(BufferMgr.cpp:540-558): dirty pool buffers fail with `Inconsistency` before
anything is written; an updated source fully overwrites; an appended source
appends the new tail after asserting growth; otherwise nothing is written. -/
def putBufferCore (st : Pool) (sid : Nat) (src : Buf) (numBytes : Nat) :
    (Pool × Buf) × Outcome :=
  match findSeg st sid with
  | none => ((st, src), Outcome.err Err.AssertFail)
  | some seg =>
    match seg.buffer with
    | none => ((st, src), Outcome.err Err.AssertFail)
    | some b =>
      let oldBufferSize := b.size
      let newBufferSize := if numBytes = 0 then src.size else numBytes
      if b.isDirty then ((st, src), Outcome.err Err.Inconsistency)
      else
        if src.isUpdated then
          putFinish st sid (bufWrite b src.dat newBufferSize 0) src
        else if src.isAppended then
          if oldBufferSize < newBufferSize then
            putFinish st sid
              (bufAppend b (src.dat.drop oldBufferSize) (newBufferSize - oldBufferSize)) src
          else ((st, src), Outcome.err Err.AssertFail)
        else putFinish st sid b src

/-- `BufferMgr::putBuffer` (BufferMgr.cpp:528-559): fetch the indexed buffer,
creating one (`createBuffer(key, pageSize_)`, default initial size 0) when the
key is absent, then run the put body.  Also returns the (possibly
dirty-cleared) source buffer. -/
def putBuffer (st : Pool) (key : List Int) (src : Buf) (numBytes : Nat) :
    (Pool × Buf) × Outcome :=
  match st.chunkIndex.find? (fun e => e.1 == key) with
  | some e => putBufferCore st e.2 src numBytes
  | none =>
    match createBuffer st key st.pageSize 0 with
    | (st₁, Outcome.ok sid) => putBufferCore st₁ sid src numBytes
    | (st₁, Outcome.err e) => ((st₁, src), Outcome.err e)

/-- `BufferMgr::fetchBuffer`, present-key path (BufferMgr.cpp:509-526): pin
the source, size the transfer (`numBytes`, or the source size when 0), grow
the destination, copy — from offset 0 when the source is updated, otherwise
only the tail `chunkSize - dest.size` bytes at offset `dest.size` — then set
the destination size, sync encoder metadata, and unpin the source.  The
absent-key path goes through the parent store (an external collaborator, spec
§1) and is returned as `none`. -/
def fetchBuffer (st : Pool) (key : List Int) (dest : Buf) (numBytes : Nat) :
    Option (Pool × Buf) :=
  match st.chunkIndex.find? (fun e => e.1 == key) with
  | none => none
  | some e =>
    match findSeg st e.2 with
    | none => none
    | some seg =>
      match seg.buffer with
      | none => none
      | some b =>
        let b₁ := { b with pinCount := b.pinCount + 1 }
        let st₁ := updateSegBuf st e.2 (some b₁)
        let chunkSize := if numBytes = 0 then b₁.size else numBytes
        let dest₁ := bufReserve dest chunkSize
        let tailBytes := (b₁.dat.drop dest₁.size).take (chunkSize - dest₁.size)
        let dest₂ :=
          if b₁.isUpdated then
            { dest₁ with dat := listWrite dest₁.dat 0 (b₁.dat.take chunkSize) }
          else
            { dest₁ with dat := listWrite dest₁.dat dest₁.size tailBytes }
        let dest₃ := { dest₂ with size := chunkSize, encoder := b₁.encoder }
        let b₂ := { b₁ with pinCount := b₁.pinCount - 1 }
        some (updateSegBuf st₁ e.2 (some b₂), dest₃)

/-! ### Specification-side definitions -/

/-- Spec-side: walking a window from the head of `segs`, can `req` pages be
covered without crossing a pinned USED segment? -/
def windowOk (req : Nat) : List BufferSeg → Nat → Bool
  | [], acc => decide (req ≤ acc)
  | s :: rest, acc =>
    decide (req ≤ acc) ||
      (!(decide (s.memStatus = MemStatus.USED ∧ 1 ≤ pinOf s)) &&
        windowOk req rest (acc + s.numPages))

/-- Spec-side: some slab contains a contiguous window of segments, none of
them pinned USED, whose page counts accumulate to at least `req` (C1's
candidate-window condition). -/
def hasCandidate (slabLists : List (List BufferSeg)) (req : Nat) : Bool :=
  slabLists.any (fun l => (List.range l.length).any (fun i => windowOk req (l.drop i) 0))

/-- Spec-side: the node id is dead — every live segment carrying it (there is
at most one in well-formed states, possibly zero after an erase) is FREE with
a null buffer.  This is C5's "its Buffer destroyed, its segment removed". -/
def SegDead (st : Pool) (sid : Nat) : Prop :=
  ∀ s ∈ allSegs st, s.sid = sid → s.memStatus = MemStatus.FREE ∧ s.buffer = none

/-- Spec-side well-formedness of one stored iterator: the node id occurs at
most once among the live segments, an unsized occurrence records
`slabNum < 0`, and a slab occurrence records its actual slab index. -/
def SidLocated (st : Pool) (sid : Nat) : Prop :=
  (allSegs st).countP (fun s => s.sid == sid) ≤ 1
  ∧ (∀ s ∈ st.unsizedSegs, s.sid = sid → s.slabNum < 0)
  ∧ (∀ j ∈ List.range st.slabSegments.length,
      ∀ s ∈ st.slabSegments.getD j [], s.sid = sid → s.slabNum = (j : Int))

/-- The buffer currently attached to the node with this id. -/
def bufOfSid (st : Pool) (sid : Nat) : Option Buf :=
  (findSeg st sid).bind (fun s => s.buffer)

/-- The pool buffer indexed under `key`, if any. -/
def poolBufAt (st : Pool) (key : List Int) : Option Buf :=
  match st.chunkIndex.find? (fun e => e.1 == key) with
  | some e => bufOfSid st e.2
  | none => none

/-- Start page of the coalesced segment produced by `removeSegment`: taken
from the previous neighbour when that neighbour exists and is FREE. -/
def freeStart (p : Option BufferSeg) (seg : BufferSeg) : Int :=
  match p with
  | some q => if q.memStatus = MemStatus.FREE then q.startPage else seg.startPage
  | none => seg.startPage

/-- Pages absorbed from a neighbour by `removeSegment`: its page count when it
exists and is FREE, 0 otherwise. -/
def freePages (p : Option BufferSeg) : Nat :=
  match p with
  | some q => if q.memStatus = MemStatus.FREE then q.numPages else 0
  | none => 0

/-- Erase the last element when it is FREE (the previous neighbour merged away
by `removeSegment`). -/
def dropIfFreeLast (pre : List BufferSeg) : List BufferSeg :=
  match pre.getLast? with
  | some p => if p.memStatus = MemStatus.FREE then pre.dropLast else pre
  | none => pre

/-- Erase the head when it is FREE (the next neighbour merged away by
`removeSegment`). -/
def dropIfFreeHead (post : List BufferSeg) : List BufferSeg :=
  match post.head? with
  | some n => if n.memStatus = MemStatus.FREE then post.tail else post
  | none => post

/-- The destination contents that C6's sentence prescribes verbatim: resize to
`numBytes` (source size when 0) and, in the non-updated case, copy a tail of
`src.size - dest.size` bytes at offset `dest.size` (the code instead copies
`chunkSize - dest.size` bytes). -/
def c6ClaimedDat (src dest : Buf) (numBytes : Nat) : List Int :=
  let chunkSize := if numBytes = 0 then src.size else numBytes
  let base := dest.dat ++ List.replicate (chunkSize - dest.dat.length) 0
  if src.isUpdated then listWrite base 0 (src.dat.take chunkSize)
  else listWrite base dest.size ((src.dat.drop dest.size).take (src.size - dest.size))

/-! ### Concrete pool states for counterexamples, failing inputs and witnesses -/

/-- One full slab holding a single unpinned USED chunk whose `lastTouched`
equals `std::numeric_limits<unsigned int>::max()`.  No slab can be added
(`maxNumSlabs` reached), so any allocation enters the eviction path. -/
def stC1 : Pool :=
  { pageSize := 512, numPagesPerSlab := 8, maxNumSlabs := 1, slabs := [1],
    slabSegments := [[{ sid := 0, startPage := 0, numPages := 8,
                        memStatus := MemStatus.USED, lastTouched := 4294967295,
                        slabNum := 0, chunkKey := [1],
                        buffer := some { pinCount := 0 } }]],
    unsizedSegs := [], chunkIndex := [([1], 0)],
    bufferEpoch := 4294967296, nextSid := 1 }

/-- The same pool as `stC1` with a small `lastTouched`, for contrast: here the
eviction scan does record the candidate. -/
def stC1b : Pool :=
  { pageSize := 512, numPagesPerSlab := 8, maxNumSlabs := 1, slabs := [1],
    slabSegments := [[{ sid := 0, startPage := 0, numPages := 8,
                        memStatus := MemStatus.USED, lastTouched := 5,
                        slabNum := 0, chunkKey := [1],
                        buffer := some { pinCount := 0 } }]],
    unsizedSegs := [], chunkIndex := [([1], 0)],
    bufferEpoch := 6, nextSid := 1 }

/-- A pinned 2-page USED segment followed by a 2-page FREE segment: growing the
USED segment to 4 pages absorbs the FREE neighbour exactly. -/
def stC2 : Pool :=
  { pageSize := 512, numPagesPerSlab := 4, maxNumSlabs := 1, slabs := [1],
    slabSegments := [[{ sid := 0, startPage := 0, numPages := 2,
                        memStatus := MemStatus.USED, lastTouched := 0,
                        slabNum := 0, chunkKey := [1],
                        buffer := some { pinCount := 1, size := 1024, mem := 1 } },
                      { sid := 1, startPage := 2, numPages := 2,
                        memStatus := MemStatus.FREE }]],
    unsizedSegs := [], chunkIndex := [([1], 0)],
    bufferEpoch := 1, nextSid := 2 }

/-- The 2-page USED segment of `stC3`. -/
def segC3 : BufferSeg :=
  { sid := 0, startPage := 0, numPages := 2, memStatus := MemStatus.USED,
    lastTouched := 0, slabNum := 0, chunkKey := [1],
    buffer := some { pinCount := 1, size := 1024, mem := 1 } }

/-- A placed 2-page USED segment whose next neighbour is USED (not FREE), with
free space available further right: `reserveBuffer` for exactly 2 pages
cannot stay in place and migrates. -/
def stC3 : Pool :=
  { pageSize := 512, numPagesPerSlab := 8, maxNumSlabs := 1, slabs := [1],
    slabSegments := [[segC3,
                      { sid := 1, startPage := 2, numPages := 2,
                        memStatus := MemStatus.USED, lastTouched := 1,
                        slabNum := 0, chunkKey := [2],
                        buffer := some { pinCount := 1, size := 1024, mem := 1025 } },
                      { sid := 2, startPage := 4, numPages := 4,
                        memStatus := MemStatus.FREE }]],
    unsizedSegs := [], chunkIndex := [([1], 0), ([2], 1)],
    bufferEpoch := 2, nextSid := 3 }

/-- A single placed USED segment with a nonempty chunk key. -/
def stC4x : Pool :=
  { pageSize := 512, numPagesPerSlab := 2, maxNumSlabs := 1, slabs := [1],
    slabSegments := [[{ sid := 0, startPage := 0, numPages := 2,
                        memStatus := MemStatus.USED, lastTouched := 0,
                        slabNum := 0, chunkKey := [1],
                        buffer := some { pinCount := 0 } }]],
    unsizedSegs := [], chunkIndex := [([1], 0)],
    bufferEpoch := 1, nextSid := 1 }

/-- The FREE left neighbour in `stW4a`. -/
def preW4 : BufferSeg := { sid := 0, startPage := 0, numPages := 1, memStatus := MemStatus.FREE }

/-- The USED middle segment in `stW4a`. -/
def segW4 : BufferSeg :=
  { sid := 1, startPage := 1, numPages := 2, memStatus := MemStatus.USED,
    lastTouched := 0, slabNum := 0, chunkKey := [5], buffer := some { pinCount := 0 } }

/-- The FREE right neighbour in `stW4a`. -/
def nxtW4 : BufferSeg := { sid := 2, startPage := 3, numPages := 1, memStatus := MemStatus.FREE }

/-- FREE / USED / FREE: removing the middle segment merges both neighbours. -/
def stW4a : Pool :=
  { pageSize := 512, numPagesPerSlab := 4, maxNumSlabs := 1, slabs := [1],
    slabSegments := [[preW4, segW4, nxtW4]],
    unsizedSegs := [], chunkIndex := [([5], 1)],
    bufferEpoch := 1, nextSid := 3 }

/-- The unsized placeholder segment of `stW4b`. -/
def segW4b : BufferSeg :=
  { sid := 0, startPage := -1, numPages := 0, memStatus := MemStatus.USED, chunkKey := [7] }

/-- A single unsized placeholder segment. -/
def stW4b : Pool :=
  { pageSize := 512, numPagesPerSlab := 4, maxNumSlabs := 1, slabs := [],
    slabSegments := [], unsizedSegs := [segW4b],
    chunkIndex := [([7], 0)], bufferEpoch := 0, nextSid := 1 }

/-- One indexed chunk; used against the empty prefix. -/
def stC5x : Pool :=
  { pageSize := 512, numPagesPerSlab := 2, maxNumSlabs := 1, slabs := [1],
    slabSegments := [[{ sid := 0, startPage := 0, numPages := 2,
                        memStatus := MemStatus.USED, lastTouched := 0,
                        slabNum := 0, chunkKey := [1],
                        buffer := some { pinCount := 0 } }]],
    unsizedSegs := [], chunkIndex := [([1], 0)],
    bufferEpoch := 1, nextSid := 1 }

/-- Three indexed chunks `[1,0]`, `[1,1]`, `[2,0]` tiling one slab with a FREE
tail: deleting the prefix `[1]` must remove exactly the first two. -/
def stC5w : Pool :=
  { pageSize := 512, numPagesPerSlab := 8, maxNumSlabs := 1, slabs := [1],
    slabSegments := [[{ sid := 0, startPage := 0, numPages := 2,
                        memStatus := MemStatus.USED, lastTouched := 0,
                        slabNum := 0, chunkKey := [1, 0],
                        buffer := some { pinCount := 0 } },
                      { sid := 1, startPage := 2, numPages := 2,
                        memStatus := MemStatus.USED, lastTouched := 1,
                        slabNum := 0, chunkKey := [1, 1],
                        buffer := some { pinCount := 0 } },
                      { sid := 2, startPage := 4, numPages := 2,
                        memStatus := MemStatus.USED, lastTouched := 2,
                        slabNum := 0, chunkKey := [2, 0],
                        buffer := some { pinCount := 0 } },
                      { sid := 3, startPage := 6, numPages := 2,
                        memStatus := MemStatus.FREE }]],
    unsizedSegs := [], chunkIndex := [([1, 0], 0), ([1, 1], 1), ([2, 0], 2)],
    bufferEpoch := 3, nextSid := 4 }

/-- The source buffer held by the pool for the C6 scenario. -/
def bC6 : Buf :=
  { pinCount := 1, size := 8, dat := [10, 11, 12, 13, 14, 15, 16, 17], encoder := 3 }

/-- The caller-provided destination buffer for the C6 scenario: 2 bytes
already materialized. -/
def dC6 : Buf := { size := 2, dat := [99, 99] }

/-- The USED segment of `stC6`, holding `bC6`. -/
def segC6 : BufferSeg :=
  { sid := 0, startPage := 0, numPages := 1, memStatus := MemStatus.USED,
    lastTouched := 0, slabNum := 0, chunkKey := [1], buffer := some bC6 }

/-- A pool holding the 8-byte chunk `[1]` backed by `bC6`. -/
def stC6 : Pool :=
  { pageSize := 512, numPagesPerSlab := 8, maxNumSlabs := 1, slabs := [1],
    slabSegments := [[segC6,
                      { sid := 1, startPage := 1, numPages := 7,
                        memStatus := MemStatus.FREE }]],
    unsizedSegs := [], chunkIndex := [([1], 0)],
    bufferEpoch := 1, nextSid := 2 }

/-- A dirty pool buffer. -/
def bufC7 : Buf := { pinCount := 0, size := 4, dat := [1, 2, 3, 4], isDirty := true }

/-- The USED segment of `stC7`, holding the dirty `bufC7`. -/
def segC7 : BufferSeg :=
  { sid := 0, startPage := 0, numPages := 1, memStatus := MemStatus.USED,
    lastTouched := 0, slabNum := 0, chunkKey := [1], buffer := some bufC7 }

/-- A pool whose indexed buffer for `[1]` is dirty. -/
def stC7 : Pool :=
  { pageSize := 512, numPagesPerSlab := 8, maxNumSlabs := 1, slabs := [1],
    slabSegments := [[segC7,
                      { sid := 1, startPage := 1, numPages := 7,
                        memStatus := MemStatus.FREE }]],
    unsizedSegs := [], chunkIndex := [([1], 0)],
    bufferEpoch := 1, nextSid := 2 }

/-- An updated, dirty source buffer. -/
def srcC7 : Buf :=
  { size := 2, dat := [5, 6], isUpdated := true, isDirty := true, encoder := 9 }

/-- A dirty source buffer that is neither updated nor appended. -/
def srcC10x : Buf := { size := 3, dat := [1, 2, 3], isDirty := true, encoder := 7 }

/-- A clean pool buffer. -/
def bufC10w : Buf := { pinCount := 1, size := 4, dat := [1, 2, 3, 4] }

/-- A pool whose indexed buffer for `[1]` is the clean `bufC10w`. -/
def stC10w : Pool :=
  { pageSize := 512, numPagesPerSlab := 8, maxNumSlabs := 1, slabs := [1],
    slabSegments := [[{ sid := 0, startPage := 0, numPages := 1,
                        memStatus := MemStatus.USED, lastTouched := 0,
                        slabNum := 0, chunkKey := [1], buffer := some bufC10w },
                      { sid := 1, startPage := 1, numPages := 7,
                        memStatus := MemStatus.FREE }]],
    unsizedSegs := [], chunkIndex := [([1], 0)],
    bufferEpoch := 1, nextSid := 2 }

/-- A dirty, non-updated, non-appended source buffer for the C10 witness. -/
def srcC10w : Buf :=
  { size := 6, dat := [9, 9, 9, 9, 9, 9], isDirty := true, encoder := 7 }

/-- An empty pool configured with 8 pages per slab. -/
def stC8w : Pool := { pageSize := 512, numPagesPerSlab := 8, maxNumSlabs := 1 }

/-- The slab list that C4 (amended) prescribes after `removeSegment` of `seg`
from the decomposition `pre ++ [seg] ++ post`: the segment is FREE with a null
buffer (its chunk key untouched), it has absorbed the start page and pages of
a FREE previous neighbour and the pages of a FREE next neighbour, and the
merged neighbours are erased. -/
def mergedSlabList (pre : List BufferSeg) (seg : BufferSeg) (post : List BufferSeg) :
    List BufferSeg :=
  dropIfFreeLast pre ++
    { seg with startPage := freeStart pre.getLast? seg,
               numPages := seg.numPages + freePages pre.getLast? + freePages post.head?,
               memStatus := MemStatus.FREE, buffer := none } :: dropIfFreeHead post

/-! ### Theorems -/

/-- `List.take` of the left part of a decomposition. -/
theorem listTakeAppendCons {α : Type} (pre post : List α) (x : α) :
    (pre ++ x :: post).take pre.length = pre := by
  induction pre with
  | nil => simp
  | cons a t ih => simp [ih]

/-- `List.drop` past the left part and the middle element of a decomposition. -/
theorem listDropAppendCons {α : Type} (pre post : List α) (x : α) :
    (pre ++ x :: post).drop (pre.length + 1) = post := by
  induction pre with
  | nil => simp
  | cons a t ih => simp [ih]

/-- `List.getD` at the middle element of a decomposition. -/
theorem listGetDAppendCons {α : Type} (pre post : List α) (x d : α) :
    (pre ++ x :: post).getD pre.length d = x := by
  induction pre with
  | nil => simp
  | cons a t ih => simpa using ih

/-- The sequential merge steps of `removeFromSlabCore` compute exactly the
declarative `mergedSlabList`. -/
theorem removeFromSlabCore_eq (pre : List BufferSeg) (seg : BufferSeg)
    (post : List BufferSeg) :
    removeFromSlabCore pre seg post = mergedSlabList pre seg post := by
  unfold removeFromSlabCore mergedSlabList dropIfFreeLast dropIfFreeHead freeStart freePages
  cases hp : pre.getLast? with
  | none =>
    cases post with
    | nil => simp
    | cons n rest => by_cases hn : n.memStatus = MemStatus.FREE <;> simp [hn]
  | some p =>
    by_cases hpf : p.memStatus = MemStatus.FREE
    · cases post with
      | nil => simp [hpf]
      | cons n rest => by_cases hn : n.memStatus = MemStatus.FREE <;> simp [hpf, hn]
    · cases post with
      | nil => simp [hpf]
      | cons n rest => by_cases hn : n.memStatus = MemStatus.FREE <;> simp [hpf, hn]

/-- C1: the claim states that the evictor always selects the candidate window
with the minimal `lastTouched` sum and fails with `OutOfMemory` only when *no*
window of unpinned segments can cover the request.  The code initialises
`minScore` to `std::numeric_limits<unsigned int>::max() = 4294967295` while
`score` is a `size_t`, so a candidate whose score reaches 4294967295 is never
recorded: in `stC1` a one-segment window of 8 unpinned pages exists
(`hasCandidate`), yet `findFreeBuffer` throws `OutOfMemory` without touching
the pool.  Lowering `lastTouched` to 5 (`stC1b`), the very same request evicts
that window, confirming the sentinel comparison as the cause. -/
theorem findFreeBuffer_sentinel_oom :
    hasCandidate stC1.slabSegments ((512 + stC1.pageSize - 1) / stC1.pageSize) = true
  ∧ findFreeBuffer stC1 512 = (stC1, Outcome.err Err.OutOfMemory)
  ∧ (findFreeBuffer stC1b 512).2 = Outcome.ok 1 := by decide

/-- C2: the claim states that no operation ever leaves a segment with
`num_pages = 0`, in particular `reserveBuffer` growing in place when the
following FREE segment has exactly the needed pages.  In `stC2` every segment
has positive pages; after `reserveBuffer` grows segment 0 from 2 to 4 pages by
absorbing the exactly-fitting 2-page FREE neighbour, that neighbour is left in
the slab list with `num_pages = 0` (BufferMgr.cpp:127-131 shrink it without
erasing it). -/
theorem reserveBuffer_exact_fit_zero_page :
    ((allSegs stC2).all (fun s => decide (0 < s.numPages))) = true
  ∧ (reserveBuffer stC2 0 2048).2 = Outcome.ok 0
  ∧ (((reserveBuffer stC2 0 2048).1.slabSegments.getD 0 []).getD 1 dummySeg).numPages = 0
  ∧ (((reserveBuffer stC2 0 2048).1.slabSegments.getD 0 []).getD 1 dummySeg).memStatus
      = MemStatus.FREE := by decide

/-- C3 counterexample: with `n = ceil(num_bytes/page_size) = 2 = seg.num_pages`
and a USED next neighbour, `reserveBuffer` does *not* return the segment
unchanged — it migrates the buffer to the free space at page 4 (returning the
new node, id 2, instead of the original node 0) and rewrites the pool.  The
claim's `n ≤ seg.num_pages` must be `n < seg.num_pages` (the C++ comparison at
BufferMgr.cpp:119 is strict). -/
theorem reserveBuffer_eq_pages_migrates :
    ((1024 + stC3.pageSize - 1) / stC3.pageSize) ≤ segC3.numPages
  ∧ reserveBuffer stC3 0 1024 ≠ (stC3, Outcome.ok 0)
  ∧ (reserveBuffer stC3 0 1024).2 = Outcome.ok 2 := by decide

/-- C3 (amended): for `n = ceil(num_bytes/page_size)` strictly below the
segment's page count, `reserveBuffer` returns the same segment handle and the
pool completely unchanged (no migration, no field modified, no shrink). -/
theorem reserveBuffer_lt_pages_noop (st : Pool) (sid numBytes : Nat) (seg : BufferSeg)
    (hfind : findSeg st sid = some seg)
    (hlt : (numBytes + st.pageSize - 1) / st.pageSize < seg.numPages) :
    reserveBuffer st sid numBytes = (st, Outcome.ok sid) := by
  unfold reserveBuffer
  rw [hfind]
  simp [hlt]

/-- Witness for C3's amended theorem: requesting 1 page of a 2-page segment
leaves `stC3` untouched. -/
theorem reserveBuffer_lt_pages_noop_w :
    reserveBuffer stC3 0 512 = (stC3, Outcome.ok 0) :=
  reserveBuffer_lt_pages_noop stC3 0 512 segC3 (by decide) (by decide)

/-- C7: a `putBuffer` against a key whose pool buffer is dirty fails with
`Inconsistency` before anything is written: the pool state (hence the buffer's
contents, size and dirty bit) and the source buffer are returned exactly as
given (the throw at BufferMgr.cpp:543-545 precedes every write). -/
theorem putBuffer_dirty_inconsistency (st : Pool) (key : List Int) (src : Buf)
    (numBytes : Nat) (e : List Int × Nat) (seg : BufferSeg) (b : Buf)
    (hfind : st.chunkIndex.find? (fun x => x.1 == key) = some e)
    (hseg : findSeg st e.2 = some seg)
    (hbuf : seg.buffer = some b)
    (hdirty : b.isDirty = true) :
    putBuffer st key src numBytes = ((st, src), Outcome.err Err.Inconsistency) := by
  unfold putBuffer putBufferCore
  simp only [hfind, hseg, hbuf]
  simp [hdirty]

/-- Witness for C7: the dirty buffer of `stC7` rejects a put. -/
theorem putBuffer_dirty_inconsistency_w :
    putBuffer stC7 [1] srcC7 0 = ((stC7, srcC7), Outcome.err Err.Inconsistency) :=
  putBuffer_dirty_inconsistency stC7 [1] srcC7 0 ([1], 0) segC7 bufC7
    (by decide) (by decide) (by decide) (by decide)

/-- C8: a request of more pages than a slab holds fails with `TooLarge`
immediately: the pool is returned unchanged — no slab scanned or added,
nothing evicted (the throw at BufferMgr.cpp:204-206 precedes everything). -/
theorem findFreeBuffer_tooLarge (st : Pool) (numBytes : Nat)
    (h : st.numPagesPerSlab < (numBytes + st.pageSize - 1) / st.pageSize) :
    findFreeBuffer st numBytes = (st, Outcome.err Err.TooLarge) := by
  unfold findFreeBuffer
  simp [h]

/-- Witness for C8: 16 pages requested from 8-page slabs. -/
theorem findFreeBuffer_tooLarge_w :
    findFreeBuffer stC8w 8192 = (stC8w, Outcome.err Err.TooLarge) :=
  findFreeBuffer_tooLarge stC8w 8192 (by decide)

/-- C9: a chunk page size of 0 is replaced by the pool's `pageSize_` before
anything else happens (BufferMgr.cpp:49-52), so `createBuffer key 0 n` is the
same function of the pool as `createBuffer key pageSize n`. -/
theorem createBuffer_zero_page_size (st : Pool) (key : List Int) (initialSize : Nat) :
    createBuffer st key 0 initialSize = createBuffer st key st.pageSize initialSize := by
  unfold createBuffer
  by_cases h : st.pageSize = 0
  · simp [h]
  · simp [h]

/-- C5 counterexample: called with the *empty* prefix on a pool whose only key
`[1]` begins with that prefix, `deleteBuffersWithPrefix` deletes nothing and
returns the state unchanged: with an empty pattern the `std::search` loop
guard at BufferMgr.cpp:387 compares the window's begin with itself and fails
immediately.  The claim ("deletes exactly the entries whose key begins with
prefix, for every prefix") requires the entry to be deleted. -/
theorem deleteBuffersWithPrefix_empty_noop :
    keyStartsWith [] [1] = true
  ∧ stC5x.chunkIndex = [([1], 0)]
  ∧ deleteBuffersWithPrefix stC5x [] = stC5x := by decide

/-- C6 counterexample: fetching 6 bytes of the 8-byte source `bC6` into the
2-byte destination `dC6` copies `chunkSize - dest.size = 4` tail bytes
(BufferMgr.cpp:521), not the `src.size - dest.size = 6` bytes the claim
prescribes: the produced contents differ from the claim's (`c6ClaimedDat`). -/
theorem fetchBuffer_tail_len_cx :
    (fetchBuffer stC6 [1] dC6 6).map (fun r => r.2.dat) = some [99, 99, 12, 13, 14, 15]
  ∧ c6ClaimedDat bC6 dC6 6 = [99, 99, 12, 13, 14, 15, 16, 17]
  ∧ (fetchBuffer stC6 [1] dC6 6).map (fun r => r.2.dat) ≠ some (c6ClaimedDat bC6 dC6 6) := by
  decide

/-- C10 counterexample: with a source that is neither updated nor appended but
a *dirty* pool buffer, `putBuffer` throws `Inconsistency` (BufferMgr.cpp:543)
instead of clearing the source's dirty bits, syncing encoder metadata and
returning the pool buffer as the claim demands: the source comes back with its
dirty bit still set and no buffer is returned. -/
theorem putBuffer_dirty_no_clear_cx :
    srcC10x.isUpdated = false ∧ srcC10x.isAppended = false ∧ srcC10x.isDirty = true
  ∧ putBuffer stC7 [1] srcC10x 0 = ((stC7, srcC10x), Outcome.err Err.Inconsistency) := by
  decide

/-- C4 counterexample: after `removeSegment` of the placed segment of `stC4x`
(chunk key `[1]`), the segment is FREE with a null buffer as claimed, but its
chunk key is still `[1]` — the C++ (BufferMgr.cpp:405-426) never assigns
`chunkKey`, while the claim requires it to be emptied. -/
theorem removeSegment_keeps_chunkKey :
    (((removeSegment stC4x 0).slabSegments.getD 0 []).getD 0 dummySeg).memStatus
        = MemStatus.FREE
  ∧ (((removeSegment stC4x 0).slabSegments.getD 0 []).getD 0 dummySeg).buffer = none
  ∧ (((removeSegment stC4x 0).slabSegments.getD 0 []).getD 0 dummySeg).chunkKey = [1] := by
  decide

/-- C4 (amended): `removeSegment` on a placed segment — presented through the
slab decomposition `pre ++ [seg] ++ post` designated by the iterator — leaves
the segment FREE with a null buffer (its chunk key unchanged), merged with its
previous and next neighbours whenever those were FREE (absorbing their pages,
taking a FREE previous neighbour's start page, and erasing the merged
neighbours, `mergedSlabList`); nothing else in the pool changes.  An unsized
segment is instead erased from `unsizedSegs`. -/
theorem removeSegment_spec (st : Pool) :
    (∀ (j : Nat) (pre post : List BufferSeg) (seg : BufferSeg),
      j < st.slabSegments.length →
      st.slabSegments.getD j [] = pre ++ seg :: post →
      seg.slabNum = (j : Int) →
      findSeg st seg.sid = some seg →
      (pre ++ seg :: post).findIdx? (fun s => s.sid == seg.sid) = some pre.length →
      removeSegment st seg.sid =
        { st with slabSegments := st.slabSegments.set j (mergedSlabList pre seg post) })
  ∧ (∀ seg ∈ st.unsizedSegs, seg.slabNum < 0 → findSeg st seg.sid = some seg →
      removeSegment st seg.sid =
        { st with unsizedSegs := st.unsizedSegs.eraseP (fun s => s.sid == seg.sid) }) := by
  constructor
  · intro j pre post seg hj hdecomp hs hfind hidx
    have hnn : ¬ seg.slabNum < 0 := by rw [hs]; omega
    have hjn : seg.slabNum.toNat = j := by rw [hs]; omega
    unfold removeSegment removeFromSlab
    simp only [hfind, hjn, hdecomp, hidx]
    rw [if_neg hnn]
    simp only [hdecomp, hidx, listTakeAppendCons, listGetDAppendCons, listDropAppendCons,
      removeFromSlabCore_eq]
  · intro seg hmem hneg hfind
    unfold removeSegment
    simp only [hfind]
    rw [if_pos hneg]

/-- Witness for C4's amended theorem: in `stW4a` both neighbours are FREE and
get merged; in `stW4b` the unsized placeholder is erased. -/
theorem removeSegment_spec_w :
    removeSegment stW4a 1 =
      { stW4a with slabSegments :=
          stW4a.slabSegments.set 0 (mergedSlabList [preW4] segW4 [nxtW4]) }
  ∧ removeSegment stW4b 0 =
      { stW4b with unsizedSegs := stW4b.unsizedSegs.eraseP (fun s => s.sid == segW4b.sid) } :=
  ⟨(removeSegment_spec stW4a).1 0 [preW4] [nxtW4] segW4 (by decide) (by decide) (by decide)
      (by decide) (by decide),
   (removeSegment_spec stW4b).2 segW4b (by decide) (by decide) (by decide)⟩

/-- Indexing into a `drop`. -/
theorem listGetElemDrop {α : Type} (l : List α) (n m : Nat) :
    (l.drop n)[m]? = l[n + m]? := by
  induction n generalizing l with
  | zero => simp
  | succ k ih =>
    cases l with
    | nil => simp
    | cons a t =>
      simp only [List.drop_succ_cons, ih, List.getElem?_cons_succ, Nat.succ_add]

/-- Reading `listWrite` strictly below the written region. -/
theorem getD_listWrite_lt (dst src : List Int) (off i : Nat)
    (hi : i < off) (hoff : off ≤ dst.length) :
    (listWrite dst off src).getD i 0 = dst.getD i 0 := by
  unfold listWrite
  rw [List.append_assoc]
  have hlen : (dst.take off).length = off := by
    simp [Nat.min_eq_left hoff]
  simp only [List.getD_eq_getElem?_getD]
  rw [List.getElem?_append_left (by rw [hlen]; exact hi)]
  rw [List.getElem?_take_of_lt hi]

/-- Reading `listWrite` inside the written region. -/
theorem getD_listWrite_mid (dst src : List Int) (off i : Nat)
    (h1 : off ≤ i) (h2 : i < off + src.length) (hoff : off ≤ dst.length) :
    (listWrite dst off src).getD i 0 = src.getD (i - off) 0 := by
  unfold listWrite
  rw [List.append_assoc]
  have hlen : (dst.take off).length = off := by
    simp [Nat.min_eq_left hoff]
  simp only [List.getD_eq_getElem?_getD]
  rw [List.getElem?_append_right (by rw [hlen]; exact h1), hlen]
  rw [List.getElem?_append_left (by omega)]

/-- `find?` by id commutes with an id-preserving targeted map. -/
theorem find?_sid_map (l : List BufferSeg) (sid : Nat) (f : BufferSeg → BufferSeg)
    (hf : ∀ s, (f s).sid = s.sid) :
    (l.map (fun s => if s.sid == sid then f s else s)).find? (fun s => s.sid == sid)
      = (l.find? (fun s => s.sid == sid)).map f := by
  induction l with
  | nil => simp
  | cons a t ih =>
    by_cases ha : a.sid = sid
    · simp [ha, hf]
    · simp only [List.map_cons]
      rw [if_neg (by simpa using ha)]
      rw [List.find?_cons_of_neg _ (by simpa using ha),
          List.find?_cons_of_neg _ (by simpa using ha)]
      exact ih

/-- `allSegs` after a targeted in-place update. -/
theorem allSegs_updateSegF (st : Pool) (sid : Nat) (f : BufferSeg → BufferSeg) :
    allSegs (updateSegF st sid f)
      = (allSegs st).map (fun s => if s.sid == sid then f s else s) := by
  simp [allSegs, updateSegF]

/-- Resolving an iterator after an id-preserving in-place update through it. -/
theorem findSeg_updateSegF (st : Pool) (sid : Nat) (f : BufferSeg → BufferSeg)
    (hf : ∀ s, (f s).sid = s.sid) :
    findSeg (updateSegF st sid f) sid = (findSeg st sid).map f := by
  rw [findSeg, allSegs_updateSegF, find?_sid_map _ _ _ hf, findSeg]

/-- Resolving an iterator after writing a buffer value through it. -/
theorem findSeg_updateSegBuf (st : Pool) (sid : Nat) (v : Option Buf) :
    findSeg (updateSegBuf st sid v)
        sid = (findSeg st sid).map (fun s => { s with buffer := v }) :=
  findSeg_updateSegF st sid _ (fun _ => rfl)

/-- C6 (amended): for a present chunk key, `fetchBuffer` sets the destination
size to `num_bytes` (the source size when `num_bytes = 0`) — call it `cs`;
when the source is updated it copies `cs` bytes from source offset 0,
otherwise it copies only the tail of `cs - dest.size` bytes (not the claim's
`src.size - dest.size`) starting at offset `dest.size`, preserving the
destination's first `dest.size` bytes; encoder metadata is synchronized from
the source, and the source ends at its original pin count (pinned, then
unpinned). -/
theorem fetchBuffer_present_spec (st : Pool) (key : List Int) (dest : Buf)
    (numBytes cs : Nat) (e : List Int × Nat) (seg : BufferSeg) (b : Buf)
    (hfind : st.chunkIndex.find? (fun x => x.1 == key) = some e)
    (hseg : findSeg st e.2 = some seg)
    (hbuf : seg.buffer = some b)
    (hcs : cs = if numBytes = 0 then b.size else numBytes)
    (hds : dest.size ≤ cs)
    (hsz : cs ≤ b.size)
    (hbl : b.size ≤ b.dat.length)
    (hdl : dest.size ≤ dest.dat.length) :
    ∃ st' d, fetchBuffer st key dest numBytes = some (st', d)
      ∧ d.size = cs
      ∧ d.encoder = b.encoder
      ∧ (b.isUpdated = true → ∀ i, i < cs → d.dat.getD i 0 = b.dat.getD i 0)
      ∧ (b.isUpdated = false → ∀ i, i < dest.size → d.dat.getD i 0 = dest.dat.getD i 0)
      ∧ (b.isUpdated = false → ∀ i, dest.size ≤ i → i < cs → d.dat.getD i 0 = b.dat.getD i 0)
      ∧ (∃ b₂, bufOfSid st' e.2 = some b₂ ∧ b₂.pinCount = b.pinCount) := by
  unfold fetchBuffer
  simp only [hfind, hseg, hbuf]
  refine ⟨_, _, rfl, ?_, ?_, ?_, ?_, ?_, ?_⟩
  · simp [hcs]
  · simp
  · intro hup i hi
    simp only [hup, if_true, ← hcs, bufReserve]
    rw [getD_listWrite_mid]
    · simp only [Nat.sub_zero, List.getD_eq_getElem?_getD]
      rw [List.getElem?_take_of_lt hi]
    · exact Nat.zero_le i
    · simp only [List.length_take, Nat.zero_add]
      omega
    · exact Nat.zero_le _
  · intro hup i hi
    simp only [hup, Bool.false_eq_true, if_false, ← hcs, bufReserve]
    rw [getD_listWrite_lt]
    · simp only [List.getD_eq_getElem?_getD]
      rw [List.getElem?_append_left (lt_of_lt_of_le hi hdl)]
    · exact hi
    · simp only [List.length_append, List.length_replicate]
      omega
  · intro hup i h1 h2
    simp only [hup, Bool.false_eq_true, if_false, ← hcs, bufReserve]
    rw [getD_listWrite_mid]
    · simp only [List.getD_eq_getElem?_getD]
      rw [List.getElem?_take_of_lt (by omega)]
      rw [listGetElemDrop]
      have hidx : dest.size + (i - dest.size) = i := by omega
      rw [hidx]
    · exact h1
    · simp only [List.length_take, List.length_drop]
      omega
    · simp only [List.length_append, List.length_replicate]
      omega
  · refine ⟨{ b with pinCount := b.pinCount + 1 - 1 }, ?_, by simp⟩
    unfold bufOfSid
    rw [findSeg_updateSegBuf, findSeg_updateSegBuf, hseg]
    simp

/-- Witness for C6's amended theorem at `stC6`: fetch 6 of the 8 source bytes
into a 2-byte destination. -/
theorem fetchBuffer_present_spec_w :
    ∃ st' d, fetchBuffer stC6 [1] dC6 6 = some (st', d)
      ∧ d.size = 6
      ∧ d.encoder = bC6.encoder
      ∧ (bC6.isUpdated = true → ∀ i, i < 6 → d.dat.getD i 0 = bC6.dat.getD i 0)
      ∧ (bC6.isUpdated = false → ∀ i, i < dC6.size → d.dat.getD i 0 = dC6.dat.getD i 0)
      ∧ (bC6.isUpdated = false → ∀ i, dC6.size ≤ i → i < 6 → d.dat.getD i 0 = bC6.dat.getD i 0)
      ∧ (∃ b₂, bufOfSid st' 0 = some b₂ ∧ b₂.pinCount = bC6.pinCount) :=
  fetchBuffer_present_spec stC6 [1] dC6 6 6 ([1], 0) segC6 bC6 (by decide) (by decide)
    (by decide) (by decide) (by decide) (by decide) (by decide) (by decide)

/-- C10 (amended): for every key and every source buffer that is neither
updated nor appended, provided the pool buffer under the key (if the key is
present) is not dirty, `putBuffer` writes no bytes into the pool buffer — its
contents, size and dirty state come back exactly as before (empty and clean
for a freshly created buffer) — yet still clears the source's dirty bits,
syncs the source's encoder metadata into the pool buffer, and returns it. -/
theorem putBuffer_no_write_frame (st : Pool) (key : List Int) (src : Buf) (numBytes : Nat)
    (hu : src.isUpdated = false) (ha : src.isAppended = false)
    (hfresh : ∀ s ∈ allSegs st, s.sid ≠ st.nextSid)
    (hbuf : st.chunkIndex.find? (fun x => x.1 == key) ≠ none → poolBufAt st key ≠ none)
    (hclean : ((poolBufAt st key).map Buf.isDirty).getD false = false) :
    ∃ sid st' b', putBuffer st key src numBytes = ((st', clearDirtyBits src), Outcome.ok sid)
      ∧ bufOfSid st' sid = some b'
      ∧ b'.dat = ((poolBufAt st key).map Buf.dat).getD []
      ∧ b'.size = ((poolBufAt st key).map Buf.size).getD 0
      ∧ b'.isDirty = false
      ∧ b'.encoder = src.encoder := by
  cases hf : st.chunkIndex.find? (fun x => x.1 == key) with
  | some e =>
    have hpb : poolBufAt st key = bufOfSid st e.2 := by
      unfold poolBufAt
      rw [hf]
    have hne : bufOfSid st e.2 ≠ none := by
      rw [← hpb]
      exact hbuf (by rw [hf]; exact fun h => Option.noConfusion h)
    cases hseg : findSeg st e.2 with
    | none => exact absurd (by unfold bufOfSid; rw [hseg]; rfl) hne
    | some seg =>
      cases hb : seg.buffer with
      | none => exact absurd (by unfold bufOfSid; rw [hseg]; simp [hb]) hne
      | some b =>
        have hpbb : poolBufAt st key = some b := by
          rw [hpb]; unfold bufOfSid; rw [hseg]; simp [hb]
        have hcleanb : b.isDirty = false := by
          rw [hpbb] at hclean
          simpa using hclean
        refine ⟨e.2, updateSegBuf st e.2 (some { b with encoder := src.encoder }),
          { b with encoder := src.encoder }, ?_, ?_, ?_, ?_, ?_, ?_⟩
        · unfold putBuffer putBufferCore putFinish
          simp only [hf, hseg, hb, hcleanb, hu, ha]
          simp
        · unfold bufOfSid
          rw [findSeg_updateSegBuf, hseg]
          simp
        · rw [hpbb]
          simp
        · rw [hpbb]
          simp
        · exact hcleanb
        · rfl
  | none =>
    have hany : st.chunkIndex.any (fun x => x.1 == key) = false := by
      rw [List.any_eq_false]
      intro x hx
      simpa using List.find?_eq_none.mp hf x hx
    have hcreate : createBuffer st key st.pageSize 0 =
        (updateSegBuf
          { st with
            unsizedSegs := st.unsizedSegs ++
              [{ sid := st.nextSid, startPage := -1, numPages := 0,
                 memStatus := MemStatus.USED, chunkKey := key }],
            chunkIndex := idxInsert st.chunkIndex key st.nextSid,
            nextSid := st.nextSid + 1 }
          st.nextSid (some { pinCount := 1, pageSz := st.pageSize }),
         Outcome.ok st.nextSid) := by
      unfold createBuffer allocateBuffer
      simp only [hany, Bool.false_eq_true, if_false, ite_self]
      simp
    have hfindNew : findSeg
        { st with
          unsizedSegs := st.unsizedSegs ++
            [{ sid := st.nextSid, startPage := -1, numPages := 0,
               memStatus := MemStatus.USED, chunkKey := key }],
          chunkIndex := idxInsert st.chunkIndex key st.nextSid,
          nextSid := st.nextSid + 1 }
        st.nextSid = some { sid := st.nextSid, startPage := -1, numPages := 0,
                            memStatus := MemStatus.USED, chunkKey := key } := by
      unfold findSeg allSegs
      simp only [List.find?_append]
      have h1 : st.unsizedSegs.find? (fun s => s.sid == st.nextSid) = none := by
        rw [List.find?_eq_none]
        intro x hx
        simpa using hfresh x (List.mem_append_left _ hx)
      have h2 : st.slabSegments.flatten.find? (fun s => s.sid == st.nextSid) = none := by
        rw [List.find?_eq_none]
        intro x hx
        simpa using hfresh x (List.mem_append_right _ hx)
      simp [h1, h2]
    have hpbn : poolBufAt st key = none := by
      unfold poolBufAt
      rw [hf]
    refine ⟨st.nextSid,
      updateSegBuf
        (updateSegBuf
          { st with
            unsizedSegs := st.unsizedSegs ++
              [{ sid := st.nextSid, startPage := -1, numPages := 0,
                 memStatus := MemStatus.USED, chunkKey := key }],
            chunkIndex := idxInsert st.chunkIndex key st.nextSid,
            nextSid := st.nextSid + 1 }
          st.nextSid (some { pinCount := 1, pageSz := st.pageSize }))
        st.nextSid (some { pinCount := 1, pageSz := st.pageSize, encoder := src.encoder }),
      { pinCount := 1, pageSz := st.pageSize, encoder := src.encoder }, ?_, ?_, ?_, ?_, ?_, ?_⟩
    · unfold putBuffer
      simp only [hf, hcreate]
      unfold putBufferCore putFinish
      simp only [findSeg_updateSegBuf, hfindNew]
      simp [hu, ha]
    · unfold bufOfSid
      simp only [findSeg_updateSegBuf, hfindNew]
      simp
    · simp [hpbn]
    · simp [hpbn]
    · rfl
    · rfl

/-- Witness for C10's amended theorem at `stC10w`: a clean pool buffer, a
dirty non-updated non-appended source. -/
theorem putBuffer_no_write_frame_w :
    ∃ sid st' b', putBuffer stC10w [1] srcC10w 0
        = ((st', clearDirtyBits srcC10w), Outcome.ok sid)
      ∧ bufOfSid st' sid = some b'
      ∧ b'.dat = ((poolBufAt stC10w [1]).map Buf.dat).getD []
      ∧ b'.size = ((poolBufAt stC10w [1]).map Buf.size).getD 0
      ∧ b'.isDirty = false
      ∧ b'.encoder = srcC10w.encoder :=
  putBuffer_no_write_frame stC10w [1] srcC10w 0 (by decide) (by decide) (by decide)
    (by decide) (by decide)

/-- `lexLt` is transitive. -/
theorem lexLt_trans : ∀ (a b c : List Int),
    lexLt a b = true → lexLt b c = true → lexLt a c = true
  | _, b, [], _, hbc => by cases b <;> simp [lexLt] at hbc
  | a, [], _ :: _, hab, _ => by cases a <;> simp [lexLt] at hab
  | [], _ :: _, _ :: _, _, _ => by simp [lexLt]
  | x :: as, y :: bs, z :: cs, hab, hbc => by
    simp only [lexLt] at hab hbc ⊢
    rcases lt_trichotomy x y with h1 | h1 | h1
    · rcases lt_trichotomy y z with h2 | h2 | h2
      · rw [if_pos (lt_trans h1 h2)]
      · subst h2
        rw [if_pos h1]
      · rw [if_neg (by omega), if_pos h2] at hbc
        exact absurd hbc (by simp)
    · subst h1
      rw [if_neg (by omega), if_neg (by omega)] at hab
      rcases lt_trichotomy x z with h2 | h2 | h2
      · rw [if_pos h2]
      · subst h2
        rw [if_neg (by omega), if_neg (by omega)] at hbc ⊢
        exact lexLt_trans as bs cs hab hbc
      · rw [if_neg (by omega), if_pos h2] at hbc
        exact absurd hbc (by simp)
    · rw [if_neg (by omega), if_pos h1] at hab
      exact absurd hab (by simp)

/-- A key extending `pfx` is not lexicographically below `pfx`. -/
theorem startsWith_not_lexLt : ∀ (pfx k : List Int),
    keyStartsWith pfx k = true → lexLt k pfx = false
  | [], k, _ => by cases k <;> rfl
  | _ :: _, [], h => by simp [keyStartsWith] at h
  | a :: ps, b :: ks, h => by
    simp only [keyStartsWith, List.length_cons, List.take_succ_cons, List.cons_beq_cons,
      Bool.and_eq_true, beq_iff_eq] at h
    obtain ⟨hba, htl⟩ := h
    subst hba
    simp only [lexLt, lt_irrefl, if_false]
    exact startsWith_not_lexLt ps ks (by simpa [keyStartsWith] using htl)

/-- Among keys not below `pfx`, once a key fails to start with `pfx`, every
lexicographically larger key fails too (prefix keys form a contiguous run). -/
theorem lex_sw_mono : ∀ (pfx k k' : List Int),
    lexLt k pfx = false → keyStartsWith pfx k = false → lexLt k k' = true →
    keyStartsWith pfx k' = false
  | [], k, _, _, hsw, _ => by simp [keyStartsWith] at hsw
  | _ :: _, [], _, hkp, _, _ => by simp [lexLt] at hkp
  | _ :: _, _ :: _, [], _, _, hkk => by simp [lexLt] at hkk
  | a :: ps, b :: ks, c :: ks', hkp, hsw, hkk => by
    simp only [lexLt] at hkp hkk
    rcases lt_trichotomy b a with h1 | h1 | h1
    · rw [if_pos h1] at hkp
      exact absurd hkp (by simp)
    · subst h1
      rw [if_neg (by omega), if_neg (by omega)] at hkp
      have hsw' : keyStartsWith ps ks = false := by
        simpa [keyStartsWith] using hsw
      rcases lt_trichotomy b c with h2 | h2 | h2
      · simp only [keyStartsWith, List.length_cons, List.take_succ_cons, List.cons_beq_cons,
          Bool.and_eq_true]
        rw [Bool.and_eq_false_iff]
        left
        simp only [beq_eq_false_iff_ne, ne_eq]
        omega
      · subst h2
        rw [if_neg (by omega), if_neg (by omega)] at hkk
        have := lex_sw_mono ps ks ks' hkp hsw' hkk
        simp only [keyStartsWith, List.length_cons, List.take_succ_cons, List.cons_beq_cons]
        rw [Bool.and_eq_false_iff]
        right
        simpa [keyStartsWith] using this
      · rw [if_neg (by omega), if_pos h2] at hkk
        exact absurd hkk (by simp)
    · rcases lt_trichotomy b c with h2 | h2 | h2
      · simp only [keyStartsWith, List.length_cons, List.take_succ_cons, List.cons_beq_cons]
        rw [Bool.and_eq_false_iff]
        left
        simp only [beq_eq_false_iff_ne, ne_eq]
        omega
      · subst h2
        simp only [keyStartsWith, List.length_cons, List.take_succ_cons, List.cons_beq_cons]
        rw [Bool.and_eq_false_iff]
        left
        simp only [beq_eq_false_iff_ne, ne_eq]
        omega
      · rw [if_neg (by omega), if_pos h2] at hkk
        exact absurd hkk (by simp)

/-- For a nonempty pattern, the `std::search` loop guard is exactly the
prefix test. -/
theorem delCond_eq (pfx k : List Int) (h : pfx ≠ []) :
    delCond pfx k = keyStartsWith pfx k := by
  unfold delCond keyStartsWith
  cases pfx with
  | nil => exact absurd rfl h
  | cons a ps => simp

/-- A list is its own `take`/middle/`drop` decomposition at an in-range index. -/
theorem listSelfDecomp {α : Type} (L : List α) (j : Nat) (d : α) (h : j < L.length) :
    L = L.take j ++ L.getD j d :: L.drop (j + 1) := by
  conv_lhs => rw [← List.take_append_drop j L]
  rw [List.drop_eq_getElem_cons h, List.getD_eq_getElem?_getD, List.getElem?_eq_getElem h]
  rfl

/-- `flatten` of a `set` decomposes around the set position. -/
theorem flatten_set_decomp (L : List (List BufferSeg)) (j : Nat) (v : List BufferSeg)
    (h : j < L.length) :
    (L.set j v).flatten = (L.take j).flatten ++ v ++ (L.drop (j + 1)).flatten := by
  rw [List.set_eq_take_cons_drop _ h]
  simp

/-- `flatten` decomposes around an in-range position. -/
theorem flatten_self_decomp (L : List (List BufferSeg)) (j : Nat) (h : j < L.length) :
    L.flatten = (L.take j).flatten ++ L.getD j [] ++ (L.drop (j + 1)).flatten := by
  conv_lhs => rw [listSelfDecomp L j [] h]
  simp

/-- Every element of `removeFromSlabCore pre seg post` comes from `pre`, from
`post`, or is the final freed segment (which keeps `seg`'s id and slab and is
FREE with a null buffer). -/
theorem removeFromSlabCore_mem (pre : List BufferSeg) (seg : BufferSeg)
    (post : List BufferSeg) (x : BufferSeg)
    (hx : x ∈ removeFromSlabCore pre seg post) :
    x ∈ pre ∨ x ∈ post ∨
      (x.sid = seg.sid ∧ x.slabNum = seg.slabNum ∧
        x.memStatus = MemStatus.FREE ∧ x.buffer = none) := by
  unfold removeFromSlabCore at hx
  cases hp : pre.getLast? with
  | none =>
    rw [hp] at hx
    cases post with
    | nil =>
      simp only [List.mem_append, List.mem_cons, List.not_mem_nil, or_false] at hx
      rcases hx with hx | hx
      · exact Or.inl hx
      · subst hx
        exact Or.inr (Or.inr ⟨rfl, rfl, rfl, rfl⟩)
    | cons n rest =>
      by_cases hn : n.memStatus = MemStatus.FREE <;>
        simp only [hn, if_true, if_false, List.mem_append, List.mem_cons] at hx <;>
        rcases hx with hx | hx | hx
      · exact Or.inl hx
      · subst hx
        exact Or.inr (Or.inr ⟨rfl, rfl, rfl, rfl⟩)
      · exact Or.inr (Or.inl (List.mem_cons_of_mem n hx))
      · exact Or.inl hx
      · subst hx
        exact Or.inr (Or.inr ⟨rfl, rfl, rfl, rfl⟩)
      · exact Or.inr (Or.inl (List.mem_cons.mpr hx))
  | some p =>
    rw [hp] at hx
    by_cases hpf : p.memStatus = MemStatus.FREE
    · cases post with
      | nil =>
        simp only [hpf, if_true, List.mem_append, List.mem_cons, List.not_mem_nil,
          or_false] at hx
        rcases hx with hx | hx
        · exact Or.inl (List.dropLast_sublist pre |>.mem hx)
        · subst hx
          exact Or.inr (Or.inr ⟨rfl, rfl, rfl, rfl⟩)
      | cons n rest =>
        by_cases hn : n.memStatus = MemStatus.FREE <;>
          simp only [hpf, hn, if_true, if_false, List.mem_append, List.mem_cons] at hx <;>
          rcases hx with hx | hx | hx
        · exact Or.inl (List.dropLast_sublist pre |>.mem hx)
        · subst hx
          exact Or.inr (Or.inr ⟨rfl, rfl, rfl, rfl⟩)
        · exact Or.inr (Or.inl (List.mem_cons_of_mem n hx))
        · exact Or.inl (List.dropLast_sublist pre |>.mem hx)
        · subst hx
          exact Or.inr (Or.inr ⟨rfl, rfl, rfl, rfl⟩)
        · exact Or.inr (Or.inl (List.mem_cons.mpr hx))
    · cases post with
      | nil =>
        simp only [hpf, if_false, List.mem_append, List.mem_cons, List.not_mem_nil,
          or_false] at hx
        rcases hx with hx | hx
        · exact Or.inl hx
        · subst hx
          exact Or.inr (Or.inr ⟨rfl, rfl, rfl, rfl⟩)
      | cons n rest =>
        by_cases hn : n.memStatus = MemStatus.FREE <;>
          simp only [hpf, hn, if_true, if_false, List.mem_append, List.mem_cons] at hx <;>
          rcases hx with hx | hx | hx
        · exact Or.inl hx
        · subst hx
          exact Or.inr (Or.inr ⟨rfl, rfl, rfl, rfl⟩)
        · exact Or.inr (Or.inl (List.mem_cons_of_mem n hx))
        · exact Or.inl hx
        · subst hx
          exact Or.inr (Or.inr ⟨rfl, rfl, rfl, rfl⟩)
        · exact Or.inr (Or.inl (List.mem_cons.mpr hx))

/-- The freed slab list never counts more occurrences of an id than the
original decomposition. -/
theorem removeFromSlabCore_countP (pre : List BufferSeg) (seg : BufferSeg)
    (post : List BufferSeg) (s : Nat) :
    (removeFromSlabCore pre seg post).countP (fun x => x.sid == s)
      ≤ (pre ++ seg :: post).countP (fun x => x.sid == s) := by
  have h1 := (List.dropLast_sublist pre).countP_le (p := fun x => x.sid == s)
  unfold removeFromSlabCore
  cases hp : pre.getLast? with
  | none =>
    cases post with
    | nil =>
      simp only [List.countP_append, List.countP_cons]
      omega
    | cons n rest =>
      by_cases hn : n.memStatus = MemStatus.FREE <;>
        simp only [hn, if_true, if_false, List.countP_append, List.countP_cons] <;> omega
  | some p =>
    by_cases hpf : p.memStatus = MemStatus.FREE
    · cases post with
      | nil =>
        simp only [hpf, if_true, List.countP_append, List.countP_cons]
        omega
      | cons n rest =>
        by_cases hn : n.memStatus = MemStatus.FREE <;>
          simp only [hpf, hn, if_true, if_false, List.countP_append, List.countP_cons] <;>
          omega
    · cases post with
      | nil =>
        simp only [hpf, if_false, List.countP_append, List.countP_cons]
        omega
      | cons n rest =>
        by_cases hn : n.memStatus = MemStatus.FREE <;>
          simp only [hpf, hn, if_true, if_false, List.countP_append, List.countP_cons] <;>
          omega

/-- Exhaustive description of what `removeSegment` does: nothing (dangling or
unlocatable id), an erase from `unsizedSegs`, or a rewrite of one slab list
through `removeFromSlabCore` at the id's position. -/
theorem removeSegment_cases (st : Pool) (t : Nat) :
    (removeSegment st t = st ∧
      (findSeg st t = none ∨ ∃ seg, findSeg st t = some seg ∧ ¬ seg.slabNum < 0 ∧
        (st.slabSegments.getD seg.slabNum.toNat []).findIdx? (fun s => s.sid == t) = none))
  ∨ (∃ seg, findSeg st t = some seg ∧ seg.slabNum < 0 ∧ seg.sid = t ∧
      removeSegment st t
        = { st with unsizedSegs := st.unsizedSegs.eraseP (fun s => s.sid == t) })
  ∨ (∃ seg j i, findSeg st t = some seg ∧ ¬ seg.slabNum < 0 ∧ seg.slabNum.toNat = j ∧
      j < st.slabSegments.length ∧
      i < (st.slabSegments.getD j []).length ∧
      ((st.slabSegments.getD j []).getD i dummySeg).sid = t ∧
      removeSegment st t = { st with slabSegments := (st.slabSegments.set j
        (removeFromSlabCore ((st.slabSegments.getD j []).take i)
          ((st.slabSegments.getD j []).getD i dummySeg)
          ((st.slabSegments.getD j []).drop (i + 1)))) }) := by
  cases hf : findSeg st t with
  | none =>
    refine Or.inl ⟨?_, Or.inl rfl⟩
    unfold removeSegment
    rw [hf]
  | some seg =>
    have hf' : (allSegs st).find? (fun s => s.sid == t) = some seg := hf
    have hsid : seg.sid = t := by
      have := List.find?_some hf'
      simpa using this
    have hrm : removeSegment st t =
        (if seg.slabNum < 0 then
          { st with unsizedSegs := st.unsizedSegs.eraseP (fun s => s.sid == t) }
        else removeFromSlab st seg.slabNum.toNat t) := by
      unfold removeSegment
      rw [hf]
    by_cases hneg : seg.slabNum < 0
    · exact Or.inr (Or.inl ⟨seg, rfl, hneg, hsid, by rw [hrm, if_pos hneg]⟩)
    · rw [if_neg hneg] at hrm
      cases hidx : (st.slabSegments.getD seg.slabNum.toNat []).findIdx?
          (fun s => s.sid == t) with
      | none =>
        refine Or.inl ⟨?_, Or.inr ⟨seg, rfl, hneg, hidx⟩⟩
        rw [hrm]
        simp only [removeFromSlab, hidx]
      | some i =>
        have hjlen : seg.slabNum.toNat < st.slabSegments.length := by
          by_contra hcon
          have hnil : st.slabSegments.getD seg.slabNum.toNat [] = [] := by
            rw [List.getD_eq_getElem?_getD, List.getElem?_eq_none (by omega)]
            rfl
          rw [hnil] at hidx
          simp at hidx
        have hfi := List.findIdx?_eq_some_iff_findIdx_eq.mp hidx
        have hilen : i < (st.slabSegments.getD seg.slabNum.toNat []).length := hfi.1
        have hgd : (st.slabSegments.getD seg.slabNum.toNat []).getD i dummySeg
            = (st.slabSegments.getD seg.slabNum.toNat [])[i] := by
          rw [List.getD_eq_getElem?_getD, List.getElem?_eq_getElem hilen]
          rfl
        have hsid2 : ((st.slabSegments.getD seg.slabNum.toNat []).getD i dummySeg).sid = t := by
          rw [hgd]
          have hq : (st.slabSegments.getD seg.slabNum.toNat
              [])[(st.slabSegments.getD seg.slabNum.toNat []).findIdx
                (fun s => s.sid == t)]? = some ((st.slabSegments.getD seg.slabNum.toNat [])[i]) := by
            rw [hfi.2]
            exact List.getElem?_eq_getElem hilen
          have hp := List.findIdx_of_getElem?_eq_some hq
          simpa using hp
        refine Or.inr (Or.inr ⟨seg, seg.slabNum.toNat, i, rfl, hneg, rfl, hjlen, hilen, hsid2, ?_⟩)
        rw [hrm]
        simp only [removeFromSlab, hidx]

/-- An in-range `getD` is a member. -/
theorem listGetDMem {α : Type} (L : List α) (j : Nat) (d : α) (h : j < L.length) :
    L.getD j d ∈ L := by
  rw [List.getD_eq_getElem?_getD, List.getElem?_eq_getElem h]
  exact List.getElem_mem h

/-- `getD` at the freshly `set` position. -/
theorem listGetDSetSelf {α : Type} (L : List α) (j : Nat) (v d : α) (h : j < L.length) :
    (L.set j v).getD j d = v := by
  rw [List.getD_eq_getElem?_getD, List.getElem?_set_self h]
  rfl

/-- `getD` away from the `set` position. -/
theorem listGetDSetNe {α : Type} (L : List α) (j j' : Nat) (v d : α) (h : j ≠ j') :
    (L.set j v).getD j' d = L.getD j' d := by
  rw [List.getD_eq_getElem?_getD, List.getElem?_set_ne h, ← List.getD_eq_getElem?_getD]

/-- Erasing the first match lowers the match count by exactly one. -/
theorem countP_eraseP_succ (p : BufferSeg → Bool) :
    ∀ (l : List BufferSeg), (∃ a ∈ l, p a) →
      (l.eraseP p).countP p + 1 = l.countP p
  | [], h => by simp at h
  | a :: tl, h => by
    by_cases ha : p a
    · simp [List.eraseP_cons_of_pos ha, List.countP_cons, ha]
    · have h' : ∃ x ∈ tl, p x := by
        rcases h with ⟨x, hx, hpx⟩
        rcases List.mem_cons.mp hx with rfl | hx
        · exact absurd hpx ha
        · exact ⟨x, hx, hpx⟩
      have hrec := countP_eraseP_succ p tl h'
      simp only [List.eraseP_cons_of_neg ha, List.countP_cons, ha, if_false]
      omega

/-- Nulling a buffer through an iterator preserves deadness of every id. -/
theorem segDead_setBufNone (st : Pool) (t s : Nat) (hd : SegDead st s) :
    SegDead (updateSegBuf st t none) s := by
  intro x hx hxs
  rw [updateSegBuf, allSegs_updateSegF] at hx
  rcases List.mem_map.mp hx with ⟨y, hy, rfl⟩
  by_cases h : (y.sid == t) = true
  · simp only [h, if_true] at hxs ⊢
    obtain ⟨h1, h2⟩ := hd y hy (by simpa using hxs)
    exact ⟨h1, by trivial⟩
  · simp only [h, if_false] at hxs ⊢
    exact hd y hy hxs

/-- `removeSegment` preserves deadness of every id. -/
theorem segDead_removeSegment (st : Pool) (t s : Nat) (hd : SegDead st s) :
    SegDead (removeSegment st t) s := by
  rcases removeSegment_cases st t with ⟨h, _⟩ | ⟨seg, hf, hneg, hsid, h⟩ |
    ⟨seg, j, i, hf, hneg, hj, hjlen, hilen, hsid, h⟩
  · rw [h]
    exact hd
  · rw [h]
    intro x hx hxs
    simp only [allSegs, List.mem_append] at hx
    rcases hx with hx | hx
    · exact hd x (List.mem_append_left _ (List.eraseP_subset _ hx)) hxs
    · exact hd x (List.mem_append_right _ hx) hxs
  · rw [h]
    intro x hx hxs
    simp only [allSegs, List.mem_append] at hx
    rcases hx with hx | hx
    · exact hd x (List.mem_append_left _ hx) hxs
    · rw [flatten_set_decomp _ _ _ hjlen] at hx
      simp only [List.mem_append] at hx
      have hlin : st.slabSegments.getD j [] ∈ st.slabSegments :=
        listGetDMem _ _ _ hjlen
      rcases hx with (hx | hx) | hx
      · rcases List.mem_flatten.mp hx with ⟨l, hl, hxl⟩
        exact hd x
          (List.mem_append_right _ (List.mem_flatten.mpr ⟨l, List.take_subset _ _ hl, hxl⟩)) hxs
      · rcases removeFromSlabCore_mem _ _ _ _ hx with hx' | hx' | ⟨h1, h2, h3, h4⟩
        · exact hd x
            (List.mem_append_right _
              (List.mem_flatten.mpr ⟨_, hlin, List.take_subset _ _ hx'⟩)) hxs
        · exact hd x
            (List.mem_append_right _
              (List.mem_flatten.mpr ⟨_, hlin, List.drop_subset _ _ hx'⟩)) hxs
        · exact ⟨h3, h4⟩
      · rcases List.mem_flatten.mp hx with ⟨l, hl, hxl⟩
        exact hd x
          (List.mem_append_right _ (List.mem_flatten.mpr ⟨l, List.drop_subset _ _ hl, hxl⟩)) hxs

/-- Writing a buffer through an iterator preserves `SidLocated` of every id. -/
theorem sidLocated_updateSegBuf (st : Pool) (t s : Nat) (v : Option Buf)
    (hl : SidLocated st s) : SidLocated (updateSegBuf st t v) s := by
  obtain ⟨h1, h2, h3⟩ := hl
  refine ⟨?_, ?_, ?_⟩
  · rw [updateSegBuf, allSegs_updateSegF, List.countP_map]
    calc ((allSegs st).countP
        ((fun x => x.sid == s) ∘ fun x => if x.sid == t then { x with buffer := v } else x))
        = (allSegs st).countP (fun x => x.sid == s) := by
          refine List.countP_congr ?_
          intro x _
          by_cases hx : x.sid = t
          · simp [hx]
          · simp [hx]
      _ ≤ 1 := h1
  · intro x hx hxs
    simp only [updateSegBuf, updateSegF] at hx
    rcases List.mem_map.mp hx with ⟨y, hy, rfl⟩
    by_cases hyt : (y.sid == t) = true <;> simp only [hyt, if_true, if_false] at hxs ⊢
    · exact h2 y hy (by simpa using hxs)
    · exact h2 y hy hxs
  · intro j hj x hx hxs
    simp only [updateSegBuf, updateSegF, List.length_map, List.mem_range] at hj
    have hj' : j < st.slabSegments.length := hj
    simp only [updateSegBuf, updateSegF] at hx
    have hmap : (st.slabSegments.map
        (fun l => l.map (fun x => if x.sid == t then { x with buffer := v } else x))).getD j []
        = (st.slabSegments.getD j []).map
            (fun x => if x.sid == t then { x with buffer := v } else x) := by
      rw [List.getD_eq_getElem?_getD, List.getD_eq_getElem?_getD, List.getElem?_map]
      rw [List.getElem?_eq_getElem hj']
      rfl
    rw [hmap] at hx
    rcases List.mem_map.mp hx with ⟨y, hy, rfl⟩
    have hjr : j ∈ List.range st.slabSegments.length := List.mem_range.mpr hj'
    by_cases hyt : (y.sid == t) = true <;> simp only [hyt, if_true, if_false] at hxs ⊢
    · exact h3 j hjr y hy (by simpa using hxs)
    · exact h3 j hjr y hy hxs

/-- `removeSegment` preserves `SidLocated` of every id. -/
theorem sidLocated_removeSegment (st : Pool) (t s : Nat) (hl : SidLocated st s) :
    SidLocated (removeSegment st t) s := by
  obtain ⟨h1, h2, h3⟩ := hl
  rcases removeSegment_cases st t with ⟨h, _⟩ | ⟨seg, hf, hneg, hsid, h⟩ |
    ⟨seg, j, i, hf, hneg, hj, hjlen, hilen, hsid, h⟩
  · rw [h]
    exact ⟨h1, h2, h3⟩
  · rw [h]
    refine ⟨?_, ?_, h3⟩
    · simp only [allSegs, List.countP_append] at h1 ⊢
      have := (List.eraseP_sublist st.unsizedSegs
        (p := fun x => x.sid == t)).countP_le (p := fun x => x.sid == s)
      omega
    · intro x hx hxs
      exact h2 x (List.eraseP_subset _ hx) hxs
  · rw [h]
    have hldecomp := listSelfDecomp (st.slabSegments.getD j []) i dummySeg hilen
    refine ⟨?_, h2, ?_⟩
    · simp only [allSegs, List.countP_append] at h1 ⊢
      rw [flatten_set_decomp _ _ _ hjlen, List.countP_append, List.countP_append]
      rw [flatten_self_decomp _ _ hjlen, List.countP_append, List.countP_append] at h1
      have hcore := removeFromSlabCore_countP
        ((st.slabSegments.getD j []).take i)
        ((st.slabSegments.getD j []).getD i dummySeg)
        ((st.slabSegments.getD j []).drop (i + 1)) s
      rw [← hldecomp] at hcore
      omega
    · intro j' hj' x hx hxs
      simp only [List.length_set, List.mem_range] at hj'
      have hjr : j' ∈ List.range st.slabSegments.length := List.mem_range.mpr hj'
      by_cases hje : j = j'
      · subst hje
        rw [listGetDSetSelf _ _ _ _ hjlen] at hx
        rcases removeFromSlabCore_mem _ _ _ _ hx with hx' | hx' | ⟨e1, e2, e3, e4⟩
        · exact h3 j hjr x (List.take_subset _ _ hx') hxs
        · exact h3 j hjr x (List.drop_subset _ _ hx') hxs
        · rw [e2]
          exact h3 j hjr _ (listGetDMem _ _ _ hilen) (by rw [← e1, hxs])
      · rw [listGetDSetNe _ _ _ _ _ hje] at hx
        exact h3 j' hjr x hx hxs

/-- Removing a located id kills it: afterwards every remaining occurrence of
the id (there is none, or the freed target) is FREE with a null buffer. -/
theorem segDead_kill (st : Pool) (t : Nat) (hl : SidLocated st t) :
    SegDead (removeSegment st t) t := by
  obtain ⟨h1, h2, h3⟩ := hl
  rcases removeSegment_cases st t with ⟨h, hnone | ⟨seg, hf, hneg, hidx⟩⟩ |
    ⟨seg, hf, hneg, hsid, h⟩ | ⟨seg, j, i, hf, hneg, hj, hjlen, hilen, hsid, h⟩
  · -- dangling id: no live occurrence at all
    rw [h]
    intro x hx hxt
    have := List.find?_eq_none.mp hnone x hx
    simp [hxt] at this
  · -- located in a slab per the located field, but absent from that list:
    -- contradicts `SidLocated`
    exfalso
    have hf' : (allSegs st).find? (fun x => x.sid == t) = some seg := hf
    have hsid : seg.sid = t := by simpa using List.find?_some hf'
    have hmem := List.mem_of_find?_eq_some hf'
    rcases List.mem_append.mp hmem with hu | hfl
    · exact absurd (h2 seg hu hsid) hneg
    · rcases List.mem_flatten.mp hfl with ⟨l, hlmem, hsegl⟩
      rcases List.mem_iff_getElem.mp hlmem with ⟨j', hj', hEq⟩
      have hgd : st.slabSegments.getD j' [] = l := by
        rw [List.getD_eq_getElem?_getD, List.getElem?_eq_getElem hj', hEq]
        rfl
      have hsn := h3 j' (List.mem_range.mpr hj') seg (by rw [hgd]; exact hsegl) hsid
      have hj'' : seg.slabNum.toNat = j' := by omega
      have := List.findIdx?_eq_none_iff.mp (by rw [← hj''] at hgd; rw [hgd] at hidx; exact hidx)
        seg hsegl
      simp [hsid] at this
  · -- unsized occurrence: erased; nothing with the id survives
    rw [h]
    have hf' : (allSegs st).find? (fun x => x.sid == t) = some seg := hf
    have hmem := List.mem_of_find?_eq_some hf'
    have hsegU : seg ∈ st.unsizedSegs := by
      rcases List.mem_append.mp hmem with hu | hfl
      · exact hu
      · exfalso
        rcases List.mem_flatten.mp hfl with ⟨l, hlmem, hsegl⟩
        rcases List.mem_iff_getElem.mp hlmem with ⟨j', hj', hEq⟩
        have hgd : st.slabSegments.getD j' [] = l := by
          rw [List.getD_eq_getElem?_getD, List.getElem?_eq_getElem hj', hEq]
          rfl
        have hsn := h3 j' (List.mem_range.mpr hj') seg (by rw [hgd]; exact hsegl) hsid
        omega
    have hex : ∃ a ∈ st.unsizedSegs, (a.sid == t) = true := ⟨seg, hsegU, by simp only [hsid, beq_self_eq_true]⟩
    have hcnt := countP_eraseP_succ (fun x => x.sid == t) st.unsizedSegs hex
    simp only [allSegs, List.countP_append] at h1
    intro x hx hxt
    exfalso
    simp only [allSegs, List.mem_append] at hx
    have hcu : 0 < st.unsizedSegs.countP (fun x => x.sid == t) :=
      List.countP_pos_iff.mpr ⟨seg, hsegU, by simp only [hsid, beq_self_eq_true]⟩
    rcases hx with hx | hx
    · have : 0 < (st.unsizedSegs.eraseP (fun x => x.sid == t)).countP (fun x => x.sid == t) :=
        List.countP_pos_iff.mpr ⟨x, hx, by simp [hxt]⟩
      omega
    · have : 0 < st.slabSegments.flatten.countP (fun x => x.sid == t) :=
        List.countP_pos_iff.mpr ⟨x, hx, by simp [hxt]⟩
      omega
  · -- slab occurrence: the position is freed, and counting rules out any
    -- other occurrence
    rw [h]
    have hmid := listGetDMem (st.slabSegments.getD j []) i dummySeg hilen
    have hldecomp := listSelfDecomp (st.slabSegments.getD j []) i dummySeg hilen
    have hcl : 0 < (st.slabSegments.getD j []).countP (fun x => x.sid == t) :=
      List.countP_pos_iff.mpr ⟨_, hmid, by simp only [hsid, beq_self_eq_true]⟩
    have hflat := flatten_self_decomp st.slabSegments j hjlen
    simp only [allSegs, List.countP_append] at h1
    rw [hflat, List.countP_append, List.countP_append] at h1
    intro x hx hxt
    simp only [allSegs, List.mem_append] at hx
    rcases hx with hx | hx
    · exfalso
      have hcu : 0 < st.unsizedSegs.countP (fun x => x.sid == t) :=
        List.countP_pos_iff.mpr ⟨x, hx, by simp [hxt]⟩
      omega
    · rw [flatten_set_decomp _ _ _ hjlen] at hx
      simp only [List.mem_append] at hx
      rcases hx with (hx | hx) | hx
      · exfalso
        have : 0 < (st.slabSegments.take j).flatten.countP (fun x => x.sid == t) :=
          List.countP_pos_iff.mpr ⟨x, hx, by simp [hxt]⟩
        omega
      · rcases removeFromSlabCore_mem _ _ _ _ hx with hx' | hx' | ⟨e1, e2, e3, e4⟩
        · exfalso
          have heq : (st.slabSegments.getD j []).countP (fun x => x.sid == t)
              = ((st.slabSegments.getD j []).take i).countP (fun x => x.sid == t)
                + (((st.slabSegments.getD j []).getD i dummySeg)
                    :: (st.slabSegments.getD j []).drop (i + 1)).countP
                      (fun x => x.sid == t) := by
            conv_lhs => rw [hldecomp]
            rw [List.countP_append]
          have hm : 0 < (((st.slabSegments.getD j []).getD i dummySeg)
              :: (st.slabSegments.getD j []).drop (i + 1)).countP (fun x => x.sid == t) :=
            List.countP_pos_iff.mpr ⟨_, List.mem_cons_self _ _,
              by simp only [hsid, beq_self_eq_true]⟩
          have ht : 0 < ((st.slabSegments.getD j []).take i).countP (fun x => x.sid == t) :=
            List.countP_pos_iff.mpr ⟨x, hx', by simp [hxt]⟩
          omega
        · exfalso
          have heq : (st.slabSegments.getD j []).countP (fun x => x.sid == t)
              = ((st.slabSegments.getD j []).take i).countP (fun x => x.sid == t)
                + (((st.slabSegments.getD j []).getD i dummySeg)
                    :: (st.slabSegments.getD j []).drop (i + 1)).countP
                      (fun x => x.sid == t) := by
            conv_lhs => rw [hldecomp]
            rw [List.countP_append]
          have hm : 0 < (((st.slabSegments.getD j []).getD i dummySeg)
              :: (st.slabSegments.getD j []).drop (i + 1)).countP (fun x => x.sid == t) := by
            rw [List.countP_cons]
            have ht2 : 0 < (st.slabSegments.getD j []).countP (fun x => x.sid == t) := hcl
            have ht3 : 0 < ((st.slabSegments.getD j []).drop (i + 1)).countP
                (fun x => x.sid == t) :=
              List.countP_pos_iff.mpr ⟨x, hx', by simp [hxt]⟩
            omega
          have ht : 0 < ((st.slabSegments.getD j []).drop (i + 1)).countP
              (fun x => x.sid == t) :=
            List.countP_pos_iff.mpr ⟨x, hx', by simp [hxt]⟩
          have hmid1 : (if ((st.slabSegments.getD j []).getD i dummySeg).sid == t
              then 1 else 0) = 1 := by
            simp only [hsid, beq_self_eq_true]
            rfl
          have hcons : (((st.slabSegments.getD j []).getD i dummySeg)
              :: (st.slabSegments.getD j []).drop (i + 1)).countP (fun x => x.sid == t)
              = ((st.slabSegments.getD j []).drop (i + 1)).countP (fun x => x.sid == t) + 1 := by
            rw [List.countP_cons, hmid1]
          omega
        · exact ⟨e3, e4⟩
      · exfalso
        have : 0 < (st.slabSegments.drop (j + 1)).flatten.countP (fun x => x.sid == t) :=
          List.countP_pos_iff.mpr ⟨x, hx, by simp [hxt]⟩
        omega

/-- `delLoop` folds `deleteOne` over the leading run of matching entries and
returns the surviving suffix of the entry list unchanged. -/
theorem delLoop_eq (pfx : List Int) : ∀ (es : List (List Int × Nat)) (st : Pool),
    delLoop pfx st es
      = ((es.takeWhile (fun e => delCond pfx e.1)).foldl
          (fun s e => deleteOne s e.2) st,
         es.dropWhile (fun e => delCond pfx e.1))
  | [], st => rfl
  | e :: rest, st => by
    by_cases h : delCond pfx e.1 = true
    · simp only [delLoop, h, if_true, List.takeWhile_cons, List.dropWhile_cons,
        List.foldl_cons]
      exact delLoop_eq pfx rest (deleteOne st e.2)
    · have h' : delCond pfx e.1 = false := by simpa using h
      simp only [delLoop, h', if_false, List.takeWhile_cons, List.dropWhile_cons,
        Bool.false_eq_true, List.foldl_nil]

/-- Deleting through a located iterator kills its node id. -/
theorem deleteOne_dead (st : Pool) (t : Nat) (hl : SidLocated st t) :
    SegDead (deleteOne st t) t :=
  segDead_kill _ _ (sidLocated_updateSegBuf st t t none hl)

/-- `deleteOne` preserves deadness of every id. -/
theorem deleteOne_preserves_dead (st : Pool) (t s : Nat) (hd : SegDead st s) :
    SegDead (deleteOne st t) s :=
  segDead_removeSegment _ _ _ (segDead_setBufNone st t s hd)

/-- `deleteOne` preserves `SidLocated` of every id. -/
theorem deleteOne_preserves_loc (st : Pool) (t s : Nat) (hl : SidLocated st s) :
    SidLocated (deleteOne st t) s :=
  sidLocated_removeSegment _ _ _ (sidLocated_updateSegBuf st t s none hl)

/-- Folding `deleteOne` over any run preserves deadness of every id. -/
theorem fold_preserves_dead (s : Nat) :
    ∀ (run : List (List Int × Nat)) (st : Pool), SegDead st s →
      SegDead (run.foldl (fun a e => deleteOne a e.2) st) s
  | [], _, hd => hd
  | e :: rest, st, hd => by
    rw [List.foldl_cons]
    exact fold_preserves_dead s rest (deleteOne st e.2)
      (deleteOne_preserves_dead st e.2 s hd)

/-- Folding `deleteOne` over a run of located ids kills every id of the run. -/
theorem fold_dead :
    ∀ (run : List (List Int × Nat)) (st : Pool),
      (∀ e ∈ run, SidLocated st e.2) →
      ∀ e ∈ run, SegDead (run.foldl (fun a e => deleteOne a e.2) st) e.2
  | [], _, _, e, he => absurd he (List.not_mem_nil e)
  | e :: rest, st, hloc, e', he' => by
    rw [List.foldl_cons]
    rcases List.mem_cons.mp he' with rfl | he'
    · exact fold_preserves_dead e'.2 rest (deleteOne st e'.2)
        (deleteOne_dead st e'.2 (hloc e' (List.mem_cons_self _ _)))
    · exact fold_dead rest (deleteOne st e.2)
        (fun x hx => deleteOne_preserves_loc st e.2 x.2 (hloc x (List.mem_cons_of_mem _ hx)))
        e' he'

/-- On a strictly sorted entry list that sits at or above `pfx`, the prefix
test holds on a leading run: `takeWhile` and `dropWhile` coincide with the
corresponding filters. -/
theorem run_split (pfx : List Int) :
    ∀ (es : List (List Int × Nat)),
      es.Pairwise (fun a b => lexLt a.1 b.1 = true) →
      (∀ e ∈ es, lexLt e.1 pfx = false) →
      es.takeWhile (fun e => keyStartsWith pfx e.1)
          = es.filter (fun e => keyStartsWith pfx e.1)
        ∧ es.dropWhile (fun e => keyStartsWith pfx e.1)
          = es.filter (fun e => !keyStartsWith pfx e.1)
  | [], _, _ => ⟨rfl, rfl⟩
  | e :: rest, hs, hge => by
    rcases List.pairwise_cons.mp hs with ⟨hall, hs'⟩
    by_cases h : keyStartsWith pfx e.1 = true
    · have ih := run_split pfx rest hs' (fun x hx => hge x (List.mem_cons_of_mem _ hx))
      simp only [List.takeWhile_cons, List.dropWhile_cons, List.filter_cons, h, if_true,
        Bool.not_true, Bool.false_eq_true]
      exact ⟨by rw [ih.1], by rw [ih.2, if_neg not_false]⟩
    · have h' : keyStartsWith pfx e.1 = false := by simpa using h
      have hrest : ∀ x ∈ rest, keyStartsWith pfx x.1 = false := fun x hx =>
        lex_sw_mono pfx e.1 x.1 (hge e (List.mem_cons_self _ _)) h' (hall x hx)
      simp only [List.takeWhile_cons, List.dropWhile_cons, List.filter_cons, h',
        Bool.false_eq_true, if_false, Bool.not_false, if_true]
      constructor
      · symm
        rw [List.filter_eq_nil_iff]
        intro x hx
        simp [hrest x hx]
      · congr 1
        symm
        rw [List.filter_eq_self]
        intro x hx
        simp [hrest x hx]

/-- Under strict sortedness every entry surviving the lower-bound split is at
or above `pfx` in key order. -/
theorem dropWhile_ge (pfx : List Int) :
    ∀ (es : List (List Int × Nat)),
      es.Pairwise (fun a b => lexLt a.1 b.1 = true) →
      ∀ e ∈ es.dropWhile (fun e => lexLt e.1 pfx), lexLt e.1 pfx = false
  | [], _, e, he => absurd he (List.not_mem_nil e)
  | e :: rest, hs, x, hx => by
    rcases List.pairwise_cons.mp hs with ⟨hall, hs'⟩
    by_cases h : lexLt e.1 pfx = true
    · simp only [List.dropWhile_cons, h, if_true] at hx
      exact dropWhile_ge pfx rest hs' x hx
    · have h' : lexLt e.1 pfx = false := by simpa using h
      simp only [List.dropWhile_cons, h', Bool.false_eq_true, if_false] at hx
      rcases List.mem_cons.mp hx with rfl | hx
      · exact h'
      · by_cases hx' : lexLt x.1 pfx = true
        · exact absurd (lexLt_trans e.1 x.1 pfx (hall x hx) hx') (by simp [h'])
        · simpa using hx'

/-- C5 (amended): for every NONEMPTY prefix on a well-formed pool (chunk index
keys strictly sorted, each stored node id uniquely located among the live
segments), `deleteBuffersWithPrefix` deletes exactly the entries whose key
begins with the prefix: the surviving index is the ordered list of
non-matching entries, every matching entry's node id ends up FREE with a null
buffer, and when no key matches the pool is returned unchanged.  The original
claim's "every prefix" fails for the empty prefix, where the code's
`std::search` guard is false immediately and nothing is deleted
(`deleteBuffersWithPrefix_empty_noop`). -/
theorem deleteBuffersWithPrefix_spec (st : Pool) (pfx : List Int)
    (hp : pfx ≠ [])
    (hs : st.chunkIndex.Pairwise (fun a b => lexLt a.1 b.1 = true))
    (hloc : ∀ e ∈ st.chunkIndex, SidLocated st e.2) :
    (deleteBuffersWithPrefix st pfx).chunkIndex
        = st.chunkIndex.filter (fun e => !keyStartsWith pfx e.1)
      ∧ (∀ e ∈ st.chunkIndex, keyStartsWith pfx e.1 = true →
          SegDead (deleteBuffersWithPrefix st pfx) e.2)
      ∧ ((∀ e ∈ st.chunkIndex, keyStartsWith pfx e.1 = false) →
          deleteBuffersWithPrefix st pfx = st) := by
  have hpred : (fun e : List Int × Nat => delCond pfx e.1)
      = fun e : List Int × Nat => keyStartsWith pfx e.1 :=
    funext fun e => delCond_eq pfx e.1 hp
  have hsplit : st.chunkIndex.takeWhile (fun e => lexLt e.1 pfx)
      ++ st.chunkIndex.dropWhile (fun e => lexLt e.1 pfx) = st.chunkIndex :=
    List.takeWhile_append_dropWhile _ _
  have hbsw : ∀ e ∈ st.chunkIndex.takeWhile (fun e => lexLt e.1 pfx),
      keyStartsWith pfx e.1 = false := by
    intro e he
    have hlt := List.mem_takeWhile_imp he
    by_cases hsw : keyStartsWith pfx e.1 = true
    · rw [startsWith_not_lexLt pfx e.1 hsw] at hlt
      exact absurd hlt (by simp)
    · simpa using hsw
  have hage : ∀ e ∈ st.chunkIndex.dropWhile (fun e => lexLt e.1 pfx),
      lexLt e.1 pfx = false := dropWhile_ge pfx st.chunkIndex hs
  have hsafter : (st.chunkIndex.dropWhile (fun e => lexLt e.1 pfx)).Pairwise
      (fun a b => lexLt a.1 b.1 = true) :=
    hs.sublist (List.dropWhile_sublist _)
  have hrs := run_split pfx (st.chunkIndex.dropWhile (fun e => lexLt e.1 pfx)) hsafter hage
  have hbfilter : (st.chunkIndex.takeWhile (fun e => lexLt e.1 pfx)).filter
      (fun e => !keyStartsWith pfx e.1)
      = st.chunkIndex.takeWhile (fun e => lexLt e.1 pfx) := by
    rw [List.filter_eq_self]
    intro x hx
    simp [hbsw x hx]
  cases hafter : st.chunkIndex.dropWhile (fun e => lexLt e.1 pfx) with
  | nil =>
    have hidx : st.chunkIndex.takeWhile (fun e => lexLt e.1 pfx) = st.chunkIndex := by
      conv_rhs => rw [← hsplit]
      rw [hafter, List.append_nil]
    have hres : deleteBuffersWithPrefix st pfx = st := by
      simp only [deleteBuffersWithPrefix, hafter]
    refine ⟨?_, ?_, fun _ => hres⟩
    · rw [hres]
      symm
      rw [List.filter_eq_self]
      intro x hx
      rw [← hidx] at hx
      simp [hbsw x hx]
    · intro e he hsw
      rw [← hidx] at he
      rw [hbsw e he] at hsw
      exact absurd hsw (by simp)
  | cons hd tl =>
    have hres : deleteBuffersWithPrefix st pfx
        = { (delLoop pfx st (hd :: tl)).1 with
            chunkIndex := st.chunkIndex.takeWhile (fun e => lexLt e.1 pfx)
              ++ (delLoop pfx st (hd :: tl)).2 } := by
      simp only [deleteBuffersWithPrefix, hafter]
    rw [delLoop_eq pfx (hd :: tl) st] at hres
    rw [hpred] at hres
    rw [← hafter] at hres
    rw [hrs.1, hrs.2] at hres
    refine ⟨?_, ?_, ?_⟩
    · rw [hres]
      conv_rhs => rw [← hsplit]
      rw [List.filter_append, hbfilter]
    · intro e he hsw
      rw [← hsplit] at he
      rcases List.mem_append.mp he with he | he
      · rw [hbsw e he] at hsw
        exact absurd hsw (by simp)
      · have herun : e ∈ (st.chunkIndex.dropWhile (fun e => lexLt e.1 pfx)).filter
            (fun e => keyStartsWith pfx e.1) :=
          List.mem_filter.mpr ⟨he, hsw⟩
        have hdead := fold_dead
          ((st.chunkIndex.dropWhile (fun e => lexLt e.1 pfx)).filter
            (fun e => keyStartsWith pfx e.1)) st
          (fun x hx => hloc x
            ((List.dropWhile_sublist _).subset (List.mem_of_mem_filter hx)))
          e herun
        rw [hres]
        intro s hsm hss
        exact hdead s hsm hss
    · intro hnone
      have hnone' : ∀ e ∈ st.chunkIndex.dropWhile (fun e => lexLt e.1 pfx),
          keyStartsWith pfx e.1 = false := fun e he =>
        hnone e ((List.dropWhile_sublist _).subset he)
      have hrun0 : (st.chunkIndex.dropWhile (fun e => lexLt e.1 pfx)).filter
          (fun e => keyStartsWith pfx e.1) = [] := by
        rw [List.filter_eq_nil_iff]
        intro x hx
        simp [hnone' x hx]
      have hkeep : (st.chunkIndex.dropWhile (fun e => lexLt e.1 pfx)).filter
          (fun e => !keyStartsWith pfx e.1)
          = st.chunkIndex.dropWhile (fun e => lexLt e.1 pfx) := by
        rw [List.filter_eq_self]
        intro x hx
        simp [hnone' x hx]
      rw [hres, hrun0, hkeep, List.foldl_nil, hsplit]

/-- Witness for `deleteBuffersWithPrefix_spec`: deleting prefix `[1]` from
`stC5w` keeps exactly the `[2,0]` entry and kills nodes 0 and 1. -/
theorem deleteBuffersWithPrefix_spec_w :
    (deleteBuffersWithPrefix stC5w [1]).chunkIndex
        = stC5w.chunkIndex.filter (fun e => !keyStartsWith [1] e.1)
      ∧ (∀ e ∈ stC5w.chunkIndex, keyStartsWith [1] e.1 = true →
          SegDead (deleteBuffersWithPrefix stC5w [1]) e.2)
      ∧ ((∀ e ∈ stC5w.chunkIndex, keyStartsWith [1] e.1 = false) →
          deleteBuffersWithPrefix stC5w [1] = stC5w) :=
  deleteBuffersWithPrefix_spec stC5w [1] (by decide) (by decide)
    (by simp only [SidLocated]; decide)
